import Mathlib

/-!
Verification of the encounter segmentation / actor classification engine
of the ffxiv-log-analyzer repository, as a shallow embedding in Lean.

Modelling conventions, used throughout:

* A raw log line is a Lean `String`; `line.split("|")` is `fields line`,
  and the JS field access `p[i]` (which yields `undefined` out of range)
  is `getF p i`, yielding `""` out of range.  Every consumer in the
  source either guards the field with a truthiness test, where
  `undefined` and `""` behave alike, or would crash on `undefined`;
  the few crashing spots are noted in comments where they occur.
* JS `Date` parsing is runtime dependent, so it is a parameter
  `parseDate : String → Option Int` returning epoch milliseconds.
  ISO strings produced by `toISOString` are identified with their
  epoch-millisecond value (`toISOString` is injective on valid dates and
  re-parsing it gives the same milliseconds back), hence the model's
  `toIso` returns `Option Int`.  Each `new Date()` (current time) is the
  parameter `now`.
* JS numbers are modelled exactly (`Int` / `ℚ`) instead of as IEEE-754
  doubles: every quantity involved (damage amounts, hit counts,
  millisecond differences) stays far below 2^53 on any real input, where
  double arithmetic is exact, and `Number.isFinite` holds for every such
  value.
* JS regular-expression uses are compiled by hand to executable
  matchers that follow the engine's backtracking order (lazy groups
  take the shortest alternative first, greedy pieces the longest);
  each matcher is annotated with the regex it implements.
-/

namespace FFXIVLog

/-! ### JS character classes and string primitives -/

/-- JS whitespace (the ASCII part of `\s`, which also drives `trim`). -/
def isWSc (c : Char) : Bool :=
  c = ' ' || c = '\t' || c = '\n' || c = '\r' || c = '\x0b' || c = '\x0c'

/-- ASCII uppercase test, the literal `name[i] >= 'A' && name[i] <= 'Z'`
of `stripServer`. -/
def isUpperAZ (c : Char) : Bool := 'A' ≤ c && c ≤ 'Z'

/-- JS `\w` word character: ASCII letter, digit or underscore. -/
def isWordC (c : Char) : Bool := c.isAlphanum || c = '_'

/-- Drop trailing whitespace. -/
def dropTrailWS (cs : List Char) : List Char :=
  (cs.reverse.dropWhile isWSc).reverse

/-- JS `String.prototype.trim` on a character list. -/
def trimL (cs : List Char) : List Char := dropTrailWS (cs.dropWhile isWSc)

/-- JS `String.prototype.trim`. -/
def trimS (s : String) : String := String.mk (trimL s.data)

/-- Field splitter for `line.split("|")`: cuts at every `'|'`, keeping
empty pieces (`""` splits to `[""]`, a trailing `'|'` yields a trailing
`""`), exactly as the JS one-character split does. -/
def splitFieldsAux : List Char → List Char → List String
  | [], acc => [String.mk acc.reverse]
  | c :: cs, acc =>
    if c = '|' then String.mk acc.reverse :: splitFieldsAux cs []
    else splitFieldsAux cs (c :: acc)

/-- `line.split("|")`. -/
def fields (line : String) : List String := splitFieldsAux line.data []

/-- JS `p[i]` on a field list; out-of-range access gives `""` (see the
conventions above). -/
def getF (p : List String) (i : Nat) : String := p[i]?.getD ""

/-! ### stripServer

```
function stripServer(name: string) {
  let capCount = 0;
  for (let i = 0; i < name.length; i++) {
    if (name[i] >= 'A' && name[i] <= 'Z') {
      capCount++;
      if (capCount === 3) { return name.slice(0, i).trim(); }
    }
  }
  return name.trim();
}
```

The loop keeps exactly the characters strictly before the third ASCII
uppercase letter (all characters when fewer than three occur) and then
trims; `takeBeforeThirdCap` is that kept prefix, threaded with the
running `capCount`. -/

def takeBeforeThirdCap : List Char → Nat → List Char
  | [], _ => []
  | c :: cs, k =>
    if isUpperAZ c then
      if k + 1 = 3 then [] else c :: takeBeforeThirdCap cs (k + 1)
    else c :: takeBeforeThirdCap cs k

/-- `stripServer` (identical copies live in the two edge-function
revisions and in the encounter indexer). -/
def stripServer (s : String) : String :=
  String.mk (trimL (takeBeforeThirdCap s.data 0))

/-- Number of ASCII uppercase letters in a character list. -/
def countUpper (cs : List Char) : Nat := cs.countP isUpperAZ

/-! Helper lemmas for C10. -/

theorem countUpper_takeBeforeThirdCap (cs : List Char) :
    ∀ k, k ≤ 2 → countUpper (takeBeforeThirdCap cs k) + k ≤ 2 := by
  induction cs with
  | nil =>
    intro k hk
    simpa [takeBeforeThirdCap, countUpper] using hk
  | cons c cs ih =>
    intro k hk
    by_cases hc : isUpperAZ c
    · by_cases h3 : k + 1 = 3
      · simp only [takeBeforeThirdCap, hc, if_true, h3]
        simpa [countUpper] using hk
      · have hrec := ih (k + 1) (by omega)
        have heq : takeBeforeThirdCap (c :: cs) k
            = c :: takeBeforeThirdCap cs (k + 1) := by
          simp [takeBeforeThirdCap, hc, h3]
        rw [heq]
        have hcount : countUpper (c :: takeBeforeThirdCap cs (k + 1))
            = countUpper (takeBeforeThirdCap cs (k + 1)) + 1 := by
          simp [countUpper, List.countP_cons, hc]
        omega
    · have hrec := ih k hk
      have heq : takeBeforeThirdCap (c :: cs) k
          = c :: takeBeforeThirdCap cs k := by
        simp [takeBeforeThirdCap, hc]
      rw [heq]
      have hcount : countUpper (c :: takeBeforeThirdCap cs k)
          = countUpper (takeBeforeThirdCap cs k) := by
        simp [countUpper, List.countP_cons, hc]
      omega

theorem takeBeforeThirdCap_of_few (cs : List Char) :
    ∀ k, countUpper cs + k ≤ 2 → takeBeforeThirdCap cs k = cs := by
  induction cs with
  | nil => intro k _; rfl
  | cons c cs ih =>
    intro k hk
    by_cases hc : isUpperAZ c
    · have hcnt : countUpper (c :: cs) = countUpper cs + 1 := by
        simp [countUpper, List.countP_cons, hc]
      have h3 : k + 1 ≠ 3 := by omega
      have : countUpper cs + (k + 1) ≤ 2 := by omega
      simp [takeBeforeThirdCap, hc, h3, ih _ this]
    · have hcnt : countUpper (c :: cs) = countUpper cs := by
        simp [countUpper, List.countP_cons, hc]
      have : countUpper cs + k ≤ 2 := by omega
      simp [takeBeforeThirdCap, hc, ih _ this]

theorem dropWhile_dropWhile (p : Char → Bool) (l : List Char) :
    (l.dropWhile p).dropWhile p = l.dropWhile p := by
  induction l with
  | nil => rfl
  | cons c l ih =>
    by_cases hc : p c
    · simp [List.dropWhile_cons, hc, ih]
    · simp [List.dropWhile_cons, hc]

theorem dropTrailWS_dropTrailWS (l : List Char) :
    dropTrailWS (dropTrailWS l) = dropTrailWS l := by
  unfold dropTrailWS
  rw [List.reverse_reverse, dropWhile_dropWhile]

/-- The front of `dropTrailWS l` is the front of `l`: trailing-trim only
removes from the back, so it yields `[]` or keeps the head. -/
theorem dropTrailWS_cons (c : Char) (l : List Char) :
    dropTrailWS (c :: l) = [] ∨ ∃ t, dropTrailWS (c :: l) = c :: t := by
  unfold dropTrailWS
  have hrev : (c :: l).reverse = l.reverse ++ [c] := by simp
  rw [hrev, List.dropWhile_append]
  by_cases h : (l.reverse.dropWhile isWSc).isEmpty = true
  · rw [if_pos h]
    by_cases hc : isWSc c
    · left
      simp [List.dropWhile_cons, hc]
    · right
      exact ⟨[], by simp [List.dropWhile_cons, hc]⟩
  · rw [if_neg h]
    right
    exact ⟨(l.reverse.dropWhile isWSc).reverse, by simp⟩

theorem dropWhile_dropTrailWS_dropWhile (l : List Char) :
    (dropTrailWS (l.dropWhile isWSc)).dropWhile isWSc
      = dropTrailWS (l.dropWhile isWSc) := by
  induction l with
  | nil => rfl
  | cons c l ih =>
    by_cases hc : isWSc c
    · rw [List.dropWhile_cons_of_pos hc]
      exact ih
    · rw [List.dropWhile_cons_of_neg hc]
      rcases dropTrailWS_cons c l with h | ⟨t, h⟩
      · rw [h]
        rfl
      · rw [h, List.dropWhile_cons_of_neg hc]

theorem trimL_trimL (l : List Char) : trimL (trimL l) = trimL l := by
  unfold trimL
  rw [dropWhile_dropTrailWS_dropWhile, dropTrailWS_dropTrailWS]

theorem countUpper_sublist {l₁ l₂ : List Char} (h : l₁.Sublist l₂) :
    countUpper l₁ ≤ countUpper l₂ :=
  List.Sublist.countP_le _ h

theorem trimL_sublist (l : List Char) : (trimL l).Sublist l := by
  unfold trimL dropTrailWS
  have h₁ : ((l.dropWhile isWSc).reverse.dropWhile isWSc).Sublist
      (l.dropWhile isWSc).reverse := List.dropWhile_sublist _
  have h₂ : ((l.dropWhile isWSc).reverse.dropWhile isWSc).reverse.Sublist
      (l.dropWhile isWSc) := by
    have := h₁.reverse
    simpa using this
  exact h₂.trans (List.dropWhile_sublist _)

/-- The output of `stripServer` never contains three ASCII uppercase
letters. -/
theorem countUpper_stripServer (s : String) :
    countUpper (stripServer s).data ≤ 2 := by
  have h₁ : countUpper (trimL (takeBeforeThirdCap s.data 0))
      ≤ countUpper (takeBeforeThirdCap s.data 0) :=
    countUpper_sublist (trimL_sublist _)
  have h₂ := countUpper_takeBeforeThirdCap s.data 0 (by omega)
  show countUpper (trimL (takeBeforeThirdCap s.data 0)) ≤ 2
  omega

/-- C10.  `stripServer` is idempotent: its output has at most two ASCII
uppercase letters, so a second pass takes the fewer-than-three branch and
merely re-trims an already-trimmed string.  Stated together with the
uppercase-count bound that the claim gives as the reason. -/
theorem stripServer_idem (s : String) :
    stripServer (stripServer s) = stripServer s ∧
      countUpper (stripServer s).data ≤ 2 := by
  refine ⟨?_, countUpper_stripServer s⟩
  have hcnt := countUpper_stripServer s
  show String.mk (trimL (takeBeforeThirdCap (stripServer s).data 0))
      = stripServer s
  rw [takeBeforeThirdCap_of_few _ 0 (by omega)]
  show String.mk (trimL (trimL (takeBeforeThirdCap s.data 0))) = _
  rw [trimL_trimL]
  rfl

/-! ### Job table (`job-loader-deno.ts`) -/

/-- JS lowercasing, used by the skill-name index. -/
def toLowerS (s : String) : String := String.mk (s.data.map Char.toLower)

inductive Role
  | tank
  | healer
  | dps
deriving DecidableEq, Repr

inductive SkillType
  | damage
  | heal
  | shield
  | buff
  | debuff
  | other
deriving DecidableEq, Repr

structure JobSkill where
  id : Nat
  name : String
  potency : Nat
  type : SkillType
deriving DecidableEq, Repr

structure JobData where
  id : Nat
  abbreviation : String
  name : String
  role : Role
  skills : List JobSkill
deriving DecidableEq, Repr

/-- The hard-coded `JOBS_DATA` table of `job-loader-deno.ts`. -/
def JOBS_DATA : List JobData := [
  ⟨19, "PLD", "Paladin", .tank, [
    ⟨9, "Fast Blade", 200, .damage⟩,
    ⟨15, "Riot Blade", 300, .damage⟩,
    ⟨21, "Rage of Halone", 400, .damage⟩,
    ⟨24, "Shield Lob", 100, .damage⟩,
    ⟨28, "Iron Will", 0, .buff⟩,
    ⟨30, "Shield Bash", 110, .damage⟩]⟩,
  ⟨21, "WAR", "Warrior", .tank, [
    ⟨31, "Heavy Swing", 200, .damage⟩,
    ⟨32, "Maim", 300, .damage⟩,
    ⟨33, "Berserk", 0, .buff⟩,
    ⟨35, "Overpower", 130, .damage⟩,
    ⟨37, "Tomahawk", 100, .damage⟩]⟩,
  ⟨24, "WHM", "White Mage", .healer, [
    ⟨119, "Stone", 140, .damage⟩,
    ⟨120, "Cure", 500, .heal⟩,
    ⟨121, "Aero", 50, .damage⟩,
    ⟨124, "Medica", 400, .heal⟩,
    ⟨125, "Raise", 0, .other⟩]⟩,
  ⟨28, "SCH", "Scholar", .healer, [
    ⟨163, "Ruin", 180, .damage⟩,
    ⟨190, "Physick", 450, .heal⟩,
    ⟨185, "Adloquium", 300, .shield⟩,
    ⟨186, "Succor", 200, .shield⟩]⟩,
  ⟨22, "MNK", "Monk", .dps, [
    ⟨53, "Bootshine", 200, .damage⟩,
    ⟨56, "True Strike", 300, .damage⟩,
    ⟨61, "Snap Punch", 250, .damage⟩,
    ⟨54, "Dragon Kick", 320, .damage⟩]⟩,
  ⟨30, "DRG", "Dragoon", .dps, [
    ⟨75, "True Thrust", 200, .damage⟩,
    ⟨78, "Vorpal Thrust", 300, .damage⟩,
    ⟨85, "Full Thrust", 400, .damage⟩,
    ⟨86, "Piercing Talon", 100, .damage⟩]⟩,
  ⟨25, "BLM", "Black Mage", .dps, [
    ⟨142, "Blizzard", 180, .damage⟩,
    ⟨141, "Fire", 180, .damage⟩,
    ⟨144, "Thunder", 30, .damage⟩,
    ⟨145, "Blizzard II", 50, .damage⟩]⟩]

/-- `findJobBySkillName`: `skillToJobMap` is filled job by job with
`Map.set` keyed by the lowercased skill name, so the binding that survives
is the last job (in table order) owning a skill of that name. -/
def findJobBySkillName (skillName : String) : Option JobData :=
  let key := toLowerS skillName
  (JOBS_DATA.filter
    (fun j => j.skills.any (fun sk => toLowerS sk.name = key))).getLast?

/-! ### Actor classifier (`actor-classifier-deno.ts`) -/

inductive Classification
  | boss
  | add
  | player
deriving DecidableEq, Repr

structure ActorInfo where
  name : String
  id : Option String := none
  job : Option String := none
  role : Option Role := none
  classification : Option Classification := none
  totalDamageDealt : ℚ := 0
  totalDamageTaken : ℚ := 0
  hitCount : ℚ := 0
  skillsUsed : List String := []
deriving DecidableEq, Repr

structure ClassificationResult where
  boss : Option ActorInfo
  adds : List ActorInfo
  partyMembers : List ActorInfo
deriving DecidableEq, Repr

/-- `jobHits.set(abbr, (jobHits.get(abbr) || 0) + 1)`: bump a counter in an
insertion-ordered map. -/
def bumpAssoc : List (String × Nat) → String → List (String × Nat)
  | [], k => [(k, 1)]
  | (k', n) :: rest, k =>
    if k' = k then (k', n + 1) :: rest else (k', n) :: bumpAssoc rest k

/-- The `jobHits` map of `getActorJob`, in `Map` insertion order. -/
def jobHitsOf (skillsUsed : List String) : List (String × Nat) :=
  skillsUsed.foldl
    (fun m s =>
      match findJobBySkillName s with
      | some j => bumpAssoc m j.abbreviation
      | none => m)
    []

/-- `Array.from(jobHits.entries()).sort((a,b) => b[1] - a[1])[0]`: a stable
descending sort followed by `[0]` selects the first entry (in map
insertion order) attaining the maximal count; the fold below picks that
entry (a strict `<` keeps the earlier of two equal counts). -/
def firstMaxHit : List (String × Nat) → Option (String × Nat)
  | [] => none
  | h :: t =>
    some (t.foldl (fun best c => if best.2 < c.2 then c else best) h)

/-- `ActorClassifier.getActorJob`. -/
def getActorJob (skillsUsed : List String) : Option (String × Role) :=
  match firstMaxHit (jobHitsOf skillsUsed) with
  | none => none
  | some (ab, _) =>
    match JOBS_DATA.find? (fun j => j.abbreviation = ab) with
    | some j => some (j.abbreviation, j.role)
    | none => none

/-- `ActorClassifier.classifySingleNPC` (thresholds 2.0, 1.5, 1.2 exactly,
see the number conventions in the header). -/
def classifySingleNPC (actor : ActorInfo) (avgDamageTaken avgHitCount : ℚ) :
    Classification :=
  let damageRatio :=
    if 0 < avgDamageTaken then actor.totalDamageTaken / avgDamageTaken else 0
  let hitRatio := if 0 < avgHitCount then actor.hitCount / avgHitCount else 0
  if 2 ≤ damageRatio ∧ (3 : ℚ)/2 ≤ hitRatio ∧ 10000 < actor.totalDamageTaken
    then .boss
  else if 50000 < actor.totalDamageTaken ∧ (6 : ℚ)/5 ≤ hitRatio then .boss
  else .add

/-- First pass of `classifyActors`: actors whose skills match a job are
marked as players (the map mutates the actor objects in place; here the
updated list is returned). -/
def classifyPlayersPass (actors : List ActorInfo) : List ActorInfo :=
  actors.map fun a =>
    match getActorJob a.skillsUsed with
    | some jr =>
      { a with job := some jr.1, role := some jr.2,
               classification := some .player }
    | none => a

/-- The actors pushed onto `classified.partyMembers` during the first
pass: exactly the (updated) actors with a job match. -/
def partyMembersOf (actors : List ActorInfo) : List ActorInfo :=
  (classifyPlayersPass actors).filter
    (fun a => (getActorJob a.skillsUsed).isSome)

/-- `actors.filter(actor => actor.classification !== 'player')` after the
first pass. -/
def npcsOf (actors : List ActorInfo) : List ActorInfo :=
  (classifyPlayersPass actors).filter
    (fun a => a.classification ≠ some .player)

/-- Stable insert for the descending damage-taken sort. -/
def insertByTaken (a : ActorInfo) : List ActorInfo → List ActorInfo
  | [] => [a]
  | b :: bs =>
    if b.totalDamageTaken ≤ a.totalDamageTaken then a :: b :: bs
    else b :: insertByTaken a bs

/-- `npcs.sort((a, b) => b.totalDamageTaken - a.totalDamageTaken)`: JS
`sort` is stable, so the result is the unique stable descending order,
which this insertion sort produces. -/
def sortByTakenDesc : List ActorInfo → List ActorInfo
  | [] => []
  | a :: rest => insertByTaken a (sortByTakenDesc rest)

/-- `reduce` mean of damage taken over the NPC group. -/
def avgDamageTakenOf (npcs : List ActorInfo) : ℚ :=
  (npcs.map (·.totalDamageTaken)).sum / npcs.length

/-- `reduce` mean of hit count over the NPC group. -/
def avgHitCountOf (npcs : List ActorInfo) : ℚ :=
  (npcs.map (·.hitCount)).sum / npcs.length

/-- One iteration of the second (boss/add) pass of `classifyActors`. -/
def bossFoldStep (avgD avgH : ℚ) (acc : Option ActorInfo × List ActorInfo)
    (actor : ActorInfo) : Option ActorInfo × List ActorInfo :=
  if classifySingleNPC actor avgD avgH = .boss then
    match acc.1 with
    | none => (some { actor with classification := some .boss }, acc.2)
    | some _ =>
      (acc.1, acc.2 ++ [{ actor with classification := some .add }])
  else (acc.1, acc.2 ++ [{ actor with classification := some .add }])

/-- `adds.reduce((prev, curr) => curr.totalDamageTaken >
prev.totalDamageTaken ? curr : prev)`: the first element attaining the
maximal damage taken. -/
def firstMaxByTaken (h : ActorInfo) (t : List ActorInfo) : ActorInfo :=
  t.foldl
    (fun prev curr =>
      if prev.totalDamageTaken < curr.totalDamageTaken then curr else prev)
    h

/-- `adds.filter(add => add !== strongestAdd)`: reference inequality keeps
every element except the one object chosen by the reduce; in this value
model that is the first occurrence of the chosen value (an earlier
structurally equal add would itself have been chosen by the reduce). -/
def eraseFirstActor (x : ActorInfo) : List ActorInfo → List ActorInfo
  | [] => []
  | y :: ys => if y = x then ys else y :: eraseFirstActor x ys

/-- `ActorClassifier.classifyActors`. -/
def classifyActors (actors : List ActorInfo) : ClassificationResult :=
  let partyMembers := partyMembersOf actors
  let npcs := npcsOf actors
  if npcs.isEmpty then ⟨none, [], partyMembers⟩
  else
    let sorted := sortByTakenDesc npcs
    let avgD := avgDamageTakenOf sorted
    let avgH := avgHitCountOf sorted
    let folded := sorted.foldl (bossFoldStep avgD avgH) (none, [])
    match folded.1 with
    | some bb => ⟨some bb, folded.2, partyMembers⟩
    | none =>
      match folded.2 with
      | [] => ⟨none, [], partyMembers⟩
      | a0 :: rest =>
        let strongest := firstMaxByTaken a0 rest
        ⟨some { strongest with classification := some .boss },
          eraseFirstActor strongest (a0 :: rest), partyMembers⟩

/-- The boss condition as §4.6 of the spec words it: ratios against the
group means, each ratio 0 when its mean is 0. -/
def specBossCondition (actor : ActorInfo) (meanDamageTaken meanHitCount : ℚ) :
    Prop :=
  let damageRatio :=
    if meanDamageTaken = 0 then 0
    else actor.totalDamageTaken / meanDamageTaken
  let hitRatio :=
    if meanHitCount = 0 then 0 else actor.hitCount / meanHitCount
  (2 ≤ damageRatio ∧ (3 : ℚ)/2 ≤ hitRatio ∧ 10000 < actor.totalDamageTaken)
    ∨ (50000 < actor.totalDamageTaken ∧ (6 : ℚ)/5 ≤ hitRatio)

instance (actor : ActorInfo) (mD mH : ℚ) :
    Decidable (specBossCondition actor mD mH) := by
  unfold specBossCondition
  infer_instance

/-- The spec's §8 example NPC: 60000 damage taken, hit count 13 against a
group mean hit count of 10 (hit ratio 1.3). -/
def npcExample60000 : ActorInfo :=
  { name := "X", totalDamageTaken := 60000, hitCount := 13 }

/-- C5.  `classifySingleNPC` returns Boss exactly under the spec's ratio
formula (for the nonnegative means that actual damage statistics produce,
where the code's `avg > 0` guard and the spec's "0 if mean is 0" wording
agree), and Add otherwise; and the spec's §8 example — an NPC with 60000
damage taken and a hit ratio of 1.3 (13 hits against a mean of 10) — is
classified Boss. -/
theorem classifySingleNPC_boss_iff :
    (∀ (actor : ActorInfo) (avgD avgH : ℚ), 0 ≤ avgD → 0 ≤ avgH →
      ((classifySingleNPC actor avgD avgH = .boss ↔
          specBossCondition actor avgD avgH) ∧
        (classifySingleNPC actor avgD avgH = .add ↔
          ¬ specBossCondition actor avgD avgH))) ∧
      classifySingleNPC npcExample60000 100000 10 = .boss := by
  constructor
  · intro actor avgD avgH h0D h0H
    have hDiff : (if 0 < avgD then actor.totalDamageTaken / avgD else 0)
        = (if avgD = 0 then 0 else actor.totalDamageTaken / avgD) := by
      rcases lt_or_eq_of_le h0D with h | h
      · rw [if_pos h, if_neg (ne_of_gt h)]
      · rw [← h]
        simp
    have hHit : (if 0 < avgH then actor.hitCount / avgH else 0)
        = (if avgH = 0 then 0 else actor.hitCount / avgH) := by
      rcases lt_or_eq_of_le h0H with h | h
      · rw [if_pos h, if_neg (ne_of_gt h)]
      · rw [← h]
        simp
    simp only [classifySingleNPC, specBossCondition, hDiff, hHit]
    constructor
    · constructor
      · intro hres
        by_cases hA : 2 ≤ (if avgD = 0 then 0
              else actor.totalDamageTaken / avgD) ∧
            (3 : ℚ)/2 ≤ (if avgH = 0 then 0 else actor.hitCount / avgH) ∧
            10000 < actor.totalDamageTaken
        · exact Or.inl hA
        · rw [if_neg hA] at hres
          by_cases hB : 50000 < actor.totalDamageTaken ∧
              (6 : ℚ)/5 ≤ (if avgH = 0 then 0 else actor.hitCount / avgH)
          · exact Or.inr hB
          · rw [if_neg hB] at hres
            exact absurd hres (by simp)
      · rintro (hA | hB)
        · rw [if_pos hA]
        · by_cases hA : 2 ≤ (if avgD = 0 then 0
              else actor.totalDamageTaken / avgD) ∧
              (3 : ℚ)/2 ≤ (if avgH = 0 then 0 else actor.hitCount / avgH) ∧
              10000 < actor.totalDamageTaken
          · rw [if_pos hA]
          · rw [if_neg hA, if_pos hB]
    · constructor
      · intro hres hcond
        rcases hcond with hA | hB
        · rw [if_pos hA] at hres
          exact absurd hres (by simp)
        · by_cases hA : 2 ≤ (if avgD = 0 then 0
              else actor.totalDamageTaken / avgD) ∧
              (3 : ℚ)/2 ≤ (if avgH = 0 then 0 else actor.hitCount / avgH) ∧
              10000 < actor.totalDamageTaken
          · rw [if_pos hA] at hres
            exact absurd hres (by simp)
          · rw [if_neg hA, if_pos hB] at hres
            exact absurd hres (by simp)
      · intro hcond
        by_cases hA : 2 ≤ (if avgD = 0 then 0
            else actor.totalDamageTaken / avgD) ∧
            (3 : ℚ)/2 ≤ (if avgH = 0 then 0 else actor.hitCount / avgH) ∧
            10000 < actor.totalDamageTaken
        · exact absurd (Or.inl hA) hcond
        · rw [if_neg hA]
          by_cases hB : 50000 < actor.totalDamageTaken ∧
              (6 : ℚ)/5 ≤ (if avgH = 0 then 0 else actor.hitCount / avgH)
          · exact absurd (Or.inr hB) hcond
          · rw [if_neg hB]
  · simp only [classifySingleNPC, npcExample60000]
    norm_num

/-- Witness for C5 at the spec's concrete example, both means positive. -/
theorem classifySingleNPC_boss_iff_witness :
    (classifySingleNPC npcExample60000 100000 10 = .boss ↔
        specBossCondition npcExample60000 100000 10) ∧
      (classifySingleNPC npcExample60000 100000 10 = .add ↔
        ¬ specBossCondition npcExample60000 100000 10) :=
  classifySingleNPC_boss_iff.1 npcExample60000 100000 10 (by norm_num)
    (by norm_num)

/-! Helper lemmas about the classifier, used for C1. -/

theorem insertByTaken_perm (a : ActorInfo) (l : List ActorInfo) :
    (insertByTaken a l).Perm (a :: l) := by
  induction l with
  | nil => exact .refl _
  | cons b bs ih =>
    by_cases h : b.totalDamageTaken ≤ a.totalDamageTaken
    · simp [insertByTaken, h]
    · simp only [insertByTaken, h, if_false]
      exact (ih.cons b).trans (List.Perm.swap a b bs)

theorem sortByTakenDesc_perm (l : List ActorInfo) :
    (sortByTakenDesc l).Perm l := by
  induction l with
  | nil => exact .refl _
  | cons a rest ih =>
    exact (insertByTaken_perm a (sortByTakenDesc rest)).trans (ih.cons a)

theorem mem_sortByTakenDesc {a : ActorInfo} {l : List ActorInfo} :
    a ∈ sortByTakenDesc l ↔ a ∈ l :=
  (sortByTakenDesc_perm l).mem_iff

theorem avgDamageTakenOf_sort (l : List ActorInfo) :
    avgDamageTakenOf (sortByTakenDesc l) = avgDamageTakenOf l := by
  unfold avgDamageTakenOf
  rw [((sortByTakenDesc_perm l).map (·.totalDamageTaken)).sum_eq,
    (sortByTakenDesc_perm l).length_eq]

theorem avgHitCountOf_sort (l : List ActorInfo) :
    avgHitCountOf (sortByTakenDesc l) = avgHitCountOf l := by
  unfold avgHitCountOf
  rw [((sortByTakenDesc_perm l).map (·.hitCount)).sum_eq,
    (sortByTakenDesc_perm l).length_eq]

theorem bossFoldStep_snd (dA dH : ℚ) (acc : Option ActorInfo × List ActorInfo)
    (a : ActorInfo) :
    (bossFoldStep dA dH acc a).2 = acc.2 ∨
      (bossFoldStep dA dH acc a).2
        = acc.2 ++ [{ a with classification := some .add }] := by
  unfold bossFoldStep
  by_cases hc : classifySingleNPC a dA dH = .boss
  · rw [if_pos hc]
    cases h : acc.1 <;> simp [h]
  · rw [if_neg hc]
    right
    rfl

theorem bossFoldStep_fst (dA dH : ℚ) (acc : Option ActorInfo × List ActorInfo)
    (a : ActorInfo) :
    (bossFoldStep dA dH acc a).1 = acc.1 ∨
      (bossFoldStep dA dH acc a).1
        = some { a with classification := some .boss } := by
  unfold bossFoldStep
  by_cases hc : classifySingleNPC a dA dH = .boss
  · rw [if_pos hc]
    cases h : acc.1 <;> simp [h]
  · rw [if_neg hc]
    left
    rfl

theorem bossFold_adds (dA dH : ℚ) :
    ∀ (l : List ActorInfo) (acc : Option ActorInfo × List ActorInfo),
      (∀ x ∈ acc.2, x.classification = some Classification.add) →
      ∀ x ∈ (l.foldl (bossFoldStep dA dH) acc).2,
        x.classification = some Classification.add := by
  intro l
  induction l with
  | nil => intro acc hac x hx; exact hac x hx
  | cons a l ih =>
    intro acc hac x hx
    rw [List.foldl_cons] at hx
    refine ih (bossFoldStep dA dH acc a) ?_ x hx
    intro y hy
    rcases bossFoldStep_snd dA dH acc a with h | h
    · exact hac y (h ▸ hy)
    · rw [h, List.mem_append] at hy
      rcases hy with hy | hy
      · exact hac y hy
      · rw [List.mem_singleton] at hy
        subst hy
        rfl

theorem bossFold_boss (dA dH : ℚ) :
    ∀ (l : List ActorInfo) (acc : Option ActorInfo × List ActorInfo),
      (∀ b, acc.1 = some b → b.classification = some Classification.boss) →
      ∀ b, (l.foldl (bossFoldStep dA dH) acc).1 = some b →
        b.classification = some Classification.boss := by
  intro l
  induction l with
  | nil => intro acc hac b hb; exact hac b hb
  | cons a l ih =>
    intro acc hac b hb
    rw [List.foldl_cons] at hb
    refine ih (bossFoldStep dA dH acc a) ?_ b hb
    intro b' hb'
    rcases bossFoldStep_fst dA dH acc a with h | h
    · exact hac b' (h ▸ hb')
    · rw [h] at hb'
      injection hb' with hb'
      subst hb'
      rfl

theorem bossFold_all_add (dA dH : ℚ) :
    ∀ (l : List ActorInfo) (acc : Option ActorInfo × List ActorInfo),
      (∀ x ∈ l, classifySingleNPC x dA dH = .add) →
      l.foldl (bossFoldStep dA dH) acc
        = (acc.1, acc.2
            ++ l.map (fun x => { x with classification := some .add })) := by
  intro l
  induction l with
  | nil => intro acc _; simp
  | cons a l ih =>
    intro acc hl
    have ha := hl a (List.mem_cons_self a l)
    have hstep : bossFoldStep dA dH acc a
        = (acc.1, acc.2 ++ [{ a with classification := some .add }]) := by
      unfold bossFoldStep
      rw [if_neg (by rw [ha]; simp)]
    rw [List.foldl_cons, hstep,
      ih _ (fun x hx => hl x (List.mem_cons_of_mem a hx))]
    simp

theorem firstMaxByTaken_mem :
    ∀ (t : List ActorInfo) (h : ActorInfo), firstMaxByTaken h t ∈ h :: t := by
  intro t
  induction t with
  | nil => intro h; simp [firstMaxByTaken]
  | cons c t ih =>
    intro h
    have hstep : firstMaxByTaken h (c :: t)
        = firstMaxByTaken
            (if h.totalDamageTaken < c.totalDamageTaken then c else h) t := rfl
    rw [hstep]
    have := ih (if h.totalDamageTaken < c.totalDamageTaken then c else h)
    rw [List.mem_cons] at this
    rcases this with heq | hmem
    · rw [heq]
      by_cases hlt : h.totalDamageTaken < c.totalDamageTaken <;>
        simp [hlt]
    · simp [hmem]

theorem firstMaxByTaken_ge :
    ∀ (t : List ActorInfo) (h : ActorInfo), ∀ x ∈ h :: t,
      x.totalDamageTaken ≤ (firstMaxByTaken h t).totalDamageTaken := by
  intro t
  induction t with
  | nil =>
    intro h x hx
    rw [List.mem_singleton] at hx
    subst hx
    exact le_refl _
  | cons c t ih =>
    intro h x hx
    have hstep : firstMaxByTaken h (c :: t)
        = firstMaxByTaken
            (if h.totalDamageTaken < c.totalDamageTaken then c else h) t := rfl
    rw [hstep]
    have hh : h.totalDamageTaken
        ≤ (if h.totalDamageTaken < c.totalDamageTaken then c
            else h).totalDamageTaken := by
      by_cases hlt : h.totalDamageTaken < c.totalDamageTaken <;>
        simp [hlt, le_of_lt]
    have hc : c.totalDamageTaken
        ≤ (if h.totalDamageTaken < c.totalDamageTaken then c
            else h).totalDamageTaken := by
      by_cases hlt : h.totalDamageTaken < c.totalDamageTaken <;>
        simp [hlt, le_of_not_lt]
    have hg := ih (if h.totalDamageTaken < c.totalDamageTaken then c else h)
    rw [List.mem_cons] at hx
    rcases hx with hx | hx
    · subst hx
      exact hh.trans (hg _ (List.mem_cons_self _ _))
    · rw [List.mem_cons] at hx
      rcases hx with hx | hx
      · subst hx
        exact hc.trans (hg _ (List.mem_cons_self _ _))
      · exact hg x (List.mem_cons_of_mem _ hx)

theorem mem_eraseFirstActor {x : ActorInfo} :
    ∀ {l : List ActorInfo} {y}, y ∈ eraseFirstActor x l → y ∈ l := by
  intro l
  induction l with
  | nil => intro y hy; exact absurd hy (by simp [eraseFirstActor])
  | cons z zs ih =>
    intro y hy
    unfold eraseFirstActor at hy
    by_cases hz : z = x
    · rw [if_pos hz] at hy
      exact List.mem_cons_of_mem _ hy
    · rw [if_neg hz, List.mem_cons] at hy
      rcases hy with hy | hy
      · exact hy ▸ List.mem_cons_self _ _
      · exact List.mem_cons_of_mem _ (ih hy)

theorem name_notin_eraseFirstActor :
    ∀ (l : List ActorInfo) (x : ActorInfo),
      (l.map (·.name)).Nodup → x ∈ l →
      x.name ∉ (eraseFirstActor x l).map (·.name) := by
  intro l
  induction l with
  | nil => intro x _ hx; cases hx
  | cons y ys ih =>
    intro x hnd hx
    rw [List.map_cons, List.nodup_cons] at hnd
    obtain ⟨hy, hnd'⟩ := hnd
    by_cases hyx : y = x
    · subst hyx
      unfold eraseFirstActor
      rw [if_pos rfl]
      exact hy
    · unfold eraseFirstActor
      rw [if_neg hyx, List.map_cons, List.mem_cons]
      rw [List.mem_cons] at hx
      rcases hx with hx | hx
      · exact absurd hx.symm hyx
      · intro hcon
        rcases hcon with hcon | hcon
        · exact hy (hcon ▸ List.mem_map_of_mem (·.name) hx)
        · exact ih x hnd' hx hcon

theorem classifyPlayersPass_map_name (l : List ActorInfo) :
    (classifyPlayersPass l).map (·.name) = l.map (·.name) := by
  unfold classifyPlayersPass
  induction l with
  | nil => rfl
  | cons a l ih =>
    rw [List.map_cons, List.map_cons, List.map_cons]
    cases hg : getActorJob a.skillsUsed <;> simp [hg, ih]

theorem partyMembersOf_classification (actors : List ActorInfo) :
    ∀ a ∈ partyMembersOf actors,
      a.classification = some Classification.player := by
  intro a ha
  unfold partyMembersOf at ha
  rw [List.mem_filter] at ha
  obtain ⟨hmem, hpred⟩ := ha
  unfold classifyPlayersPass at hmem
  rw [List.mem_map] at hmem
  obtain ⟨orig, _, heq⟩ := hmem
  cases hg : getActorJob orig.skillsUsed with
  | none =>
    rw [hg] at heq
    rw [← heq] at hpred
    rw [hg] at hpred
    exact absurd hpred (by simp)
  | some jr =>
    rw [hg] at heq
    rw [← heq]

/-- C1.  For every actor-statistics map (its values, with their keyed
names, hence pairwise distinct names), the classification result carries
at most one Boss: the boss slot (when filled) is the only actor tagged
`boss`, every add is tagged `add` (further boss-qualifying actors are
demoted) and every party member `player`; and when no NPC meets the boss
thresholds but at least one NPC exists, an Add with the group-maximal
`totalDamageTaken` is promoted to Boss and its name is absent from the
returned adds. -/
theorem classifyActors_single_boss (actors : List ActorInfo)
    (hnd : (actors.map (·.name)).Nodup) :
    (∀ b, (classifyActors actors).boss = some b →
        b.classification = some Classification.boss) ∧
      (∀ a ∈ (classifyActors actors).adds,
        a.classification = some Classification.add) ∧
      (∀ a ∈ (classifyActors actors).partyMembers,
        a.classification = some Classification.player) ∧
      (npcsOf actors ≠ [] →
        (∀ a ∈ npcsOf actors,
          classifySingleNPC a (avgDamageTakenOf (npcsOf actors))
            (avgHitCountOf (npcsOf actors)) = .add) →
        ∃ b, (classifyActors actors).boss = some b ∧
          (∃ a ∈ npcsOf actors,
            b = { a with classification := some Classification.boss }) ∧
          (∀ a ∈ npcsOf actors,
            a.totalDamageTaken ≤ b.totalDamageTaken) ∧
          b.name ∉ ((classifyActors actors).adds.map (·.name))) := by
  have hnpcnames : ((npcsOf actors).map (·.name)).Nodup := by
    have hsub : ((npcsOf actors).map (·.name)).Sublist
        ((classifyPlayersPass actors).map (·.name)) := by
      unfold npcsOf
      exact List.Sublist.map _ (List.filter_sublist _)
    rw [classifyPlayersPass_map_name] at hsub
    exact hnd.sublist hsub
  by_cases hemp : (npcsOf actors).isEmpty = true
  · have hres : classifyActors actors = ⟨none, [], partyMembersOf actors⟩ := by
      unfold classifyActors
      rw [if_pos hemp]
    refine ⟨?_, ?_, ?_, ?_⟩
    · intro b hb
      rw [hres] at hb
      exact absurd hb (by simp)
    · intro a ha
      rw [hres] at ha
      exact absurd ha (by simp)
    · intro a ha
      rw [hres] at ha
      exact partyMembersOf_classification actors a ha
    · intro hne _
      exact absurd (List.isEmpty_iff.mp hemp) hne
  · rcases hFp : (sortByTakenDesc (npcsOf actors)).foldl
        (bossFoldStep (avgDamageTakenOf (sortByTakenDesc (npcsOf actors)))
          (avgHitCountOf (sortByTakenDesc (npcsOf actors)))) (none, [])
      with ⟨bo, adds⟩
    have hadds : ∀ x ∈ adds, x.classification = some Classification.add := by
      intro x hx
      have hh := bossFold_adds
        (avgDamageTakenOf (sortByTakenDesc (npcsOf actors)))
        (avgHitCountOf (sortByTakenDesc (npcsOf actors)))
        (sortByTakenDesc (npcsOf actors)) (none, [])
        (by intro y hy; exact absurd hy (by simp)) x
      rw [hFp] at hh
      exact hh hx
    have hboss : ∀ b, bo = some b →
        b.classification = some Classification.boss := by
      intro b hb
      have hh := bossFold_boss
        (avgDamageTakenOf (sortByTakenDesc (npcsOf actors)))
        (avgHitCountOf (sortByTakenDesc (npcsOf actors)))
        (sortByTakenDesc (npcsOf actors)) (none, [])
        (by intro b' hb'; exact absurd hb' (by simp)) b
      rw [hFp] at hh
      exact hh hb
    cases hbo : bo with
    | some bb =>
      have hres : classifyActors actors
          = ⟨some bb, adds, partyMembersOf actors⟩ := by
        unfold classifyActors
        rw [if_neg hemp]
        simp only [hFp, hbo]
      refine ⟨?_, ?_, ?_, ?_⟩
      · intro b hb
        rw [hres] at hb
        simp only [ClassificationResult.boss] at hb
        injection hb with hb
        exact hb ▸ hboss bb (by rw [hbo])
      · intro a ha
        rw [hres] at ha
        exact hadds a ha
      · intro a ha
        rw [hres] at ha
        exact partyMembersOf_classification actors a ha
      · intro hne hall
        exfalso
        have hall' : ∀ a ∈ sortByTakenDesc (npcsOf actors),
            classifySingleNPC a
              (avgDamageTakenOf (sortByTakenDesc (npcsOf actors)))
              (avgHitCountOf (sortByTakenDesc (npcsOf actors))) = .add := by
          intro a ha
          rw [avgDamageTakenOf_sort, avgHitCountOf_sort]
          exact hall a (mem_sortByTakenDesc.mp ha)
        have := bossFold_all_add
          (avgDamageTakenOf (sortByTakenDesc (npcsOf actors)))
          (avgHitCountOf (sortByTakenDesc (npcsOf actors)))
          (sortByTakenDesc (npcsOf actors)) (none, []) hall'
        rw [hFp] at this
        have hb1 : bo = none := congrArg Prod.fst this
        rw [hbo] at hb1
        exact Option.noConfusion hb1
    | none =>
      have hall_or : adds = []
          ∨ ∃ a0 rest, adds = a0 :: rest := by
        cases adds with
        | nil => exact Or.inl rfl
        | cons a0 rest => exact Or.inr ⟨a0, rest, rfl⟩
      rcases hall_or with hnil | ⟨a0, rest, haeq⟩
      · -- npcs nonempty but fold produced no boss and no adds: impossible,
        -- yet the branch exists in the source; the result there is empty.
        have hres : classifyActors actors
            = ⟨none, [], partyMembersOf actors⟩ := by
          unfold classifyActors
          rw [if_neg hemp]
          simp only [hFp, hbo, hnil]
        refine ⟨?_, ?_, ?_, ?_⟩
        · intro b hb
          rw [hres] at hb
          exact absurd hb (by simp)
        · intro a ha
          rw [hres] at ha
          exact absurd ha (by simp)
        · intro a ha
          rw [hres] at ha
          exact partyMembersOf_classification actors a ha
        · intro hne hall
          exfalso
          have hall' : ∀ a ∈ sortByTakenDesc (npcsOf actors),
              classifySingleNPC a
                (avgDamageTakenOf (sortByTakenDesc (npcsOf actors)))
                (avgHitCountOf (sortByTakenDesc (npcsOf actors))) = .add := by
            intro a ha
            rw [avgDamageTakenOf_sort, avgHitCountOf_sort]
            exact hall a (mem_sortByTakenDesc.mp ha)
          have heq := bossFold_all_add
            (avgDamageTakenOf (sortByTakenDesc (npcsOf actors)))
            (avgHitCountOf (sortByTakenDesc (npcsOf actors)))
            (sortByTakenDesc (npcsOf actors)) (none, []) hall'
          rw [hFp] at heq
          have h2 : adds = (sortByTakenDesc (npcsOf actors)).map
              (fun x => { x with classification := some .add }) := by
            have := congrArg Prod.snd heq
            simpa using this
          rw [hnil] at h2
          have hs : sortByTakenDesc (npcsOf actors) = [] :=
            List.map_eq_nil_iff.mp h2.symm
          have hp := sortByTakenDesc_perm (npcsOf actors)
          rw [hs] at hp
          exact hne hp.symm.eq_nil
      · have hstrong := firstMaxByTaken_mem rest a0
        have hres : classifyActors actors
            = ⟨some { firstMaxByTaken a0 rest with
                  classification := some Classification.boss },
                eraseFirstActor (firstMaxByTaken a0 rest) (a0 :: rest),
                partyMembersOf actors⟩ := by
          unfold classifyActors
          rw [if_neg hemp]
          simp only [hFp, hbo, haeq]
        refine ⟨?_, ?_, ?_, ?_⟩
        · intro b hb
          rw [hres] at hb
          injection hb with hb
          rw [← hb]
        · intro a ha
          rw [hres] at ha
          have : a ∈ a0 :: rest := mem_eraseFirstActor ha
          exact hadds a (haeq ▸ this)
        · intro a ha
          rw [hres] at ha
          exact partyMembersOf_classification actors a ha
        · intro hne hall
          have hall' : ∀ a ∈ sortByTakenDesc (npcsOf actors),
              classifySingleNPC a
                (avgDamageTakenOf (sortByTakenDesc (npcsOf actors)))
                (avgHitCountOf (sortByTakenDesc (npcsOf actors))) = .add := by
            intro a ha
            rw [avgDamageTakenOf_sort, avgHitCountOf_sort]
            exact hall a (mem_sortByTakenDesc.mp ha)
          have heq := bossFold_all_add
            (avgDamageTakenOf (sortByTakenDesc (npcsOf actors)))
            (avgHitCountOf (sortByTakenDesc (npcsOf actors)))
            (sortByTakenDesc (npcsOf actors)) (none, []) hall'
          rw [hFp] at heq
          have h2 : adds = (sortByTakenDesc (npcsOf actors)).map
              (fun x => { x with classification := some .add }) := by
            have := congrArg Prod.snd heq
            simpa using this
          -- the promoted strongest add corresponds to an original npc
          have hmem0 : firstMaxByTaken a0 rest ∈ adds := haeq ▸ hstrong
          rw [h2, List.mem_map] at hmem0
          obtain ⟨src, hsrcmem, hsrceq⟩ := hmem0
          refine ⟨{ firstMaxByTaken a0 rest with
              classification := some Classification.boss }, ?_, ?_, ?_, ?_⟩
          · rw [hres]
          · refine ⟨src, mem_sortByTakenDesc.mp hsrcmem, ?_⟩
            rw [← hsrceq]
          · intro a ha
            have hmem' : { a with classification := some .add } ∈ adds := by
              rw [h2, List.mem_map]
              exact ⟨a, mem_sortByTakenDesc.mpr ha, rfl⟩
            rw [haeq] at hmem'
            have hle := firstMaxByTaken_ge rest a0 _ hmem'
            simpa using hle
          · rw [hres]
            show (firstMaxByTaken a0 rest).name ∉ _
            refine name_notin_eraseFirstActor (a0 :: rest)
              (firstMaxByTaken a0 rest) ?_ hstrong
            rw [← haeq, h2]
            have hmap : (((sortByTakenDesc (npcsOf actors)).map
                (fun x => { x with classification := some .add })).map
                  (·.name))
                = ((sortByTakenDesc (npcsOf actors)).map (·.name)) := by
              rw [List.map_map]
              rfl
            rw [hmap]
            exact (((sortByTakenDesc_perm (npcsOf actors)).map
              (·.name)).nodup_iff).mpr hnpcnames

/-- A concrete two-NPC statistics map (both below every boss threshold)
for the C1 witness. -/
def cActors : List ActorInfo :=
  [{ name := "X", totalDamageTaken := 100, hitCount := 1,
     skillsUsed := ["chat"] },
   { name := "Y", totalDamageTaken := 50, hitCount := 2,
     skillsUsed := ["chat"] }]

/-- Witness for C1: on `cActors` no NPC meets the thresholds, and the
highest-damage-taken add is promoted to Boss and removed from the adds. -/
theorem classifyActors_single_boss_witness :
    ∃ b, (classifyActors cActors).boss = some b ∧
      (∃ a ∈ npcsOf cActors,
        b = { a with classification := some Classification.boss }) ∧
      (∀ a ∈ npcsOf cActors, a.totalDamageTaken ≤ b.totalDamageTaken) ∧
      b.name ∉ ((classifyActors cActors).adds.map (·.name)) :=
  (classifyActors_single_boss cActors (by decide)).2.2.2 (by decide)
    (by
      have h : npcsOf cActors = cActors := by decide
      rw [h]
      intro a ha
      rcases List.mem_cons.mp ha with h1 | h1
      · subst h1
        simp only [classifySingleNPC, avgDamageTakenOf, avgHitCountOf,
          cActors]
        norm_num
      · rcases List.mem_cons.mp h1 with h2 | h2
        · subst h2
          simp only [classifySingleNPC, avgDamageTakenOf, avgHitCountOf,
            cActors]
          norm_num
        · cases h2)

/-! ### Message-field extraction (C6)

`splitByDamageIdle` (parse-log index.ts):
`const msg = (p[4] ?? p[3] ?? p[2] ?? "").trim();`

parse-encounter handler:
`const rawMsg = (p[4] ?? p[3] ?? p[2] ?? "").trim().replace(/^[^\w]*\s*/, "");`
-/

/-- JS `p[4] ?? p[3] ?? p[2] ?? ""`.  Nullish coalescing falls through
only on a missing (out-of-range, i.e. `undefined`) field, never on a
present-but-empty one. -/
def firstPresent (p : List String) : String :=
  (((p[4]?.orElse fun _ => p[3]?).orElse fun _ => p[2]?)).getD ""

/-- `.replace(/^[^\w]*\s*/, "")`.  Since `\s ⊆ [^\w]`, the greedy match
consumes exactly the leading run of non-word characters. -/
def dropNonWord (s : String) : String :=
  String.mk (s.data.dropWhile (fun c => !isWordC c))

/-- The message text `splitByDamageIdle` submits to its hit/takes
matchers. -/
def rawMsgIdle (p : List String) : String := trimS (firstPresent p)

/-- The message text the parse-encounter handler submits to `RE_HIT` /
`RE_TAKES`. -/
def rawMsgEncounter (p : List String) : String :=
  dropNonWord (trimS (firstPresent p))

/-- An opcode-00 line with five fields whose field 4 is present but
empty while field 3 holds a hit message. -/
def c6Line : String := "00|t|Left|Bahamut hits Ifrit for 100 damage.|"

/-- C6 counterexample: on a line whose field 4 is present but empty, both
extractors yield the empty message, not field 3's text, refuting the
first-non-empty reading. -/
theorem rawMsg_not_first_nonempty :
    getF (fields c6Line) 4 = "" ∧
      getF (fields c6Line) 3 = "Bahamut hits Ifrit for 100 damage." ∧
      rawMsgIdle (fields c6Line) = "" ∧
      rawMsgEncounter (fields c6Line) = "" ∧
      rawMsgEncounter (fields c6Line) ≠ getF (fields c6Line) 3 := by
  refine ⟨rfl, rfl, rfl, rfl, ?_⟩
  decide

/-- C6 amended: the message is taken from whichever of fields 4, 3, 2 is
the first one present (JS `??` skips only missing fields): field 4
whenever the line has at least five fields — even when it is empty —
else field 3, else field 2, else `""`; the parse-encounter handler
additionally strips the leading non-word prefix, while
`splitByDamageIdle` only trims. -/
theorem rawMsg_first_present (p : List String) :
    (5 ≤ p.length →
      rawMsgIdle p = trimS (getF p 4) ∧
        rawMsgEncounter p = dropNonWord (trimS (getF p 4))) ∧
      (p.length = 4 →
        rawMsgIdle p = trimS (getF p 3) ∧
          rawMsgEncounter p = dropNonWord (trimS (getF p 3))) ∧
      (p.length = 3 →
        rawMsgIdle p = trimS (getF p 2) ∧
          rawMsgEncounter p = dropNonWord (trimS (getF p 2))) ∧
      (p.length ≤ 2 → rawMsgIdle p = "" ∧ rawMsgEncounter p = "") := by
  refine ⟨?_, ?_, ?_, ?_⟩
  · intro hlen
    cases hv : p[4]? with
    | none =>
      rw [List.getElem?_eq_none_iff] at hv
      omega
    | some v =>
      have : firstPresent p = v := by
        simp [firstPresent, hv, Option.orElse]
      have hgf : getF p 4 = v := by simp [getF, hv]
      rw [rawMsgIdle, rawMsgEncounter, this, hgf]
      exact ⟨rfl, rfl⟩
  · intro hlen
    have h4 : p[4]? = none := List.getElem?_eq_none (by omega)
    cases hv : p[3]? with
    | none =>
      rw [List.getElem?_eq_none_iff] at hv
      omega
    | some v =>
      have : firstPresent p = v := by
        simp [firstPresent, h4, hv, Option.orElse]
      have hgf : getF p 3 = v := by simp [getF, hv]
      rw [rawMsgIdle, rawMsgEncounter, this, hgf]
      exact ⟨rfl, rfl⟩
  · intro hlen
    have h4 : p[4]? = none := List.getElem?_eq_none (by omega)
    have h3 : p[3]? = none := List.getElem?_eq_none (by omega)
    cases hv : p[2]? with
    | none =>
      rw [List.getElem?_eq_none_iff] at hv
      omega
    | some v =>
      have : firstPresent p = v := by
        simp [firstPresent, h4, h3, hv, Option.orElse]
      have hgf : getF p 2 = v := by simp [getF, hv]
      rw [rawMsgIdle, rawMsgEncounter, this, hgf]
      exact ⟨rfl, rfl⟩
  · intro hlen
    have h4 : p[4]? = none := List.getElem?_eq_none (by omega)
    have h3 : p[3]? = none := List.getElem?_eq_none (by omega)
    have h2 : p[2]? = none := List.getElem?_eq_none (by omega)
    have : firstPresent p = "" := by
      simp [firstPresent, h4, h3, h2, Option.orElse]
    rw [rawMsgIdle, rawMsgEncounter, this]
    exact ⟨rfl, rfl⟩

/-- Witness for the amended C6 at concrete lines of each length class. -/
theorem rawMsg_first_present_witness :
    rawMsgIdle (fields "00|t|A|B|C") = "C" ∧
      rawMsgIdle (fields "00|t|A|B") = "B" ∧
      rawMsgIdle (fields "00|t|A") = "A" ∧
      rawMsgIdle (fields "00|t") = "" := by
  refine ⟨?_, ?_, ?_, ?_⟩
  · rw [((rawMsg_first_present (fields "00|t|A|B|C")).1 (by decide)).1]
    decide
  · rw [((rawMsg_first_present (fields "00|t|A|B")).2.1 (by decide)).1]
    decide
  · rw [((rawMsg_first_present (fields "00|t|A")).2.2.1 (by decide)).1]
    decide
  · exact ((rawMsg_first_present (fields "00|t")).2.2.2 (by decide)).1

/-! ### Timestamps and Strategy A (`splitByDamageIdle`, C7)

Per the header conventions, `parseDate` abstracts `Date` parsing and ISO
strings are identified with their epoch milliseconds. -/

/-- `toMs`: `s ? new Date(s) : null` — the empty string is falsy, any
other unparsable string gives an invalid date, hence `null`. -/
def mToMs (parseDate : String → Option Int) (s : String) : Option Int :=
  if s = "" then none else parseDate s

/-- `toIso`, under the ISO-string ≡ milliseconds identification. -/
def mToIso (parseDate : String → Option Int) (s : String) : Option Int :=
  mToMs parseDate s

/-- Case-insensitive character comparison (the regexes' `i` flag). -/
def lcEq (a b : Char) : Bool := a.toLower = b.toLower

/-- Case-insensitive literal prefix test. -/
def ciPrefix : List Char → List Char → Bool
  | [], _ => true
  | _ :: _, [] => false
  | p :: ps, c :: cs => lcEq p c && ciPrefix ps cs

/-- `\s+` when followed by a non-whitespace token: requires one
whitespace character and consumes the maximal run (the engine's greedy
match cannot give characters back to a non-whitespace successor). -/
def dropWS1 : List Char → Option (List Char)
  | c :: rest => if isWSc c then some ((c :: rest).dropWhile isWSc) else none
  | [] => none

/-- `\d+` when followed by a non-digit token: one digit required, maximal
run consumed. -/
def dropDigits1 : List Char → Option (List Char)
  | c :: rest =>
    if c.isDigit then some ((c :: rest).dropWhile Char.isDigit) else none
  | [] => none

/-- Case-insensitive literal, consumed. -/
def dropLit (pat : String) (cs : List Char) : Option (List Char) :=
  if ciPrefix pat.data cs then some (cs.drop pat.length) else none

/-- The deterministic tail `\s+for\s+\d+\s+damage` of the hit test. -/
def forDamageTail (cs : List Char) : Bool :=
  (((((dropWS1 cs).bind (dropLit "for")).bind dropWS1).bind
    dropDigits1).bind dropWS1).elim false
    (fun r => ciPrefix "damage".data r)

/-- `/hits\s+.+?\s+for\s+\d+\s+damage/i.test(msg)`: some occurrence of
`hits`, a whitespace character, at least one further character (`.+?` may
itself span whitespace), then the deterministic tail. -/
def hitsTest (s : String) : Bool :=
  s.data.tails.any fun suf =>
    ciPrefix "hits".data suf &&
      (match suf.drop 4 with
       | c :: r1 =>
         isWSc c &&
           (List.range r1.length).any fun m0 => forDamageTail (r1.drop (m0 + 1))
       | [] => false)

/-- `/takes\s+\d+\s+damage/i.test(msg)`. -/
def takesTest (s : String) : Bool :=
  s.data.tails.any fun suf =>
    ciPrefix "takes".data suf &&
      ((((dropWS1 (suf.drop 5)).bind dropDigits1).bind dropWS1).elim false
        (fun r => ciPrefix "damage".data r))

/-- One iteration of the index-collection loop of `splitByDamageIdle`:
a line is "active" when it has at least two fields and is an opcode-00
line whose message matches the hit or takes test, or an opcode 21/22
line. -/
def isActiveLine (line : String) : Bool :=
  let p := fields line
  if p.length < 2 then false
  else if getF p 0 = "00" then
    let msg := rawMsgIdle p
    hitsTest msg || takesTest msg
  else getF p 0 = "21" || getF p 0 = "22"

/-- The collected `idxs` of `splitByDamageIdle`. -/
def activeIdxs (lines : List String) : List Nat :=
  (lines.enum.filter (fun il => isActiveLine il.2)).map (·.1)

structure Fight where
  lines : List String
  startMs : Int
  endMs : Int
deriving DecidableEq, Repr

/-- The `cuts` loop: partition the active indices into runs, cutting
whenever the gap between consecutive active timestamps exceeds
`idleMs`. -/
def groupRunsAux (tsOf : Nat → Int) (idleMs : Int) :
    List Nat → Nat → List Nat → List (List Nat)
  | [], _, acc => [acc.reverse]
  | j :: rest, prev, acc =>
    if tsOf j - tsOf prev > idleMs then
      acc.reverse :: groupRunsAux tsOf idleMs rest j [j]
    else groupRunsAux tsOf idleMs rest j (j :: acc)

def groupRuns (tsOf : Nat → Int) (idleMs : Int) : List Nat → List (List Nat)
  | [] => []
  | i :: rest => groupRunsAux tsOf idleMs rest i [i]

/-- `splitByDamageIdle` (parse-log index.ts, Strategy A). -/
def splitByDamageIdle (parseDate : String → Option Int) (now : Int)
    (lines : List String) (idleMs : Int) : List Fight :=
  let idxs := activeIdxs lines
  if idxs.isEmpty then
    if lines.isEmpty then []
    else
      let firstTs := mToIso parseDate (getF (fields (lines.headD "")) 1)
      let lastTs :=
        ((mToIso parseDate (getF (fields (lines.getLastD "")) 1)).orElse
          fun _ => firstTs).getD now
      [⟨lines, firstTs.getD now, lastTs⟩]
  else
    let tsOf := fun i =>
      (mToMs parseDate (getF (fields (lines.getD i "")) 1)).getD 0
    let runs := groupRuns tsOf idleMs idxs
    runs.filterMap fun run =>
      match run with
      | [] => none  -- runs are never empty
      | a :: _ =>
        let b := run.getLastD a
        let slice := (lines.drop a).take (b + 1 - a)
        let startIso :=
          (mToIso parseDate (getF (fields (slice.headD "")) 1)).getD now
        let endIso :=
          (mToIso parseDate (getF (fields (slice.getLastD "")) 1)).getD
            startIso
        some ⟨slice, startIso, endIso⟩

/-- A structural decimal-digit date parser used to instantiate the
`parseDate` parameter on concrete inputs (timestamps in the test lines
are written as plain millisecond numbers). -/
def digitsToNat (cs : List Char) : Nat :=
  cs.foldl (fun n c => 10 * n + (c.toNat - 48)) 0

def tParse (s : String) : Option Int :=
  if s ≠ "" ∧ s.data.all Char.isDigit then some (digitsToNat s.data)
  else none

/-- A two-line log with no active lines whose first timestamp field is
unparsable and whose second parses to 5000. -/
def c7Lines : List String := ["01|x|a", "01|5000|b"]

/-- C7 counterexample: with no active lines the single returned encounter
does span the whole input, but its start is NOT "the first timestamp
present": the first line's field is unparsable, so the code substitutes
the current time (here 0), while the first timestamp present in the
input is 5000. -/
theorem splitByDamageIdle_not_first_present_ts :
    splitByDamageIdle tParse 0 c7Lines 8000 = [⟨c7Lines, 0, 5000⟩] ∧
      c7Lines.filterMap (fun l => mToMs tParse (getF (fields l) 1))
        = [5000] ∧
      (0 : Int) ≠ 5000 := by
  refine ⟨by decide, by decide, by decide⟩

/-- C7 amended: for a non-empty log with no active lines, Strategy A
returns exactly one encounter covering the entire line range; its start
is the first line's parsed timestamp — the current time when that does
not parse — and its end is the last line's parsed timestamp, falling
back to the start value (and to the current time when neither
parses). -/
theorem splitByDamageIdle_no_active (parseDate : String → Option Int)
    (now : Int) (lines : List String) (idleMs : Int)
    (hne : lines ≠ []) (hact : activeIdxs lines = []) :
    splitByDamageIdle parseDate now lines idleMs
      = [⟨lines,
          (mToIso parseDate (getF (fields (lines.headD "")) 1)).getD now,
          ((mToIso parseDate (getF (fields (lines.getLastD "")) 1)).orElse
            fun _ =>
              mToIso parseDate (getF (fields (lines.headD "")) 1)).getD
            now⟩] := by
  have h2 : lines.isEmpty = false := by
    cases lines with
    | nil => exact absurd rfl hne
    | cons _ _ => rfl
  unfold splitByDamageIdle
  simp [hact, h2]

/-- Witness for the amended C7 on a one-line inactive log. -/
theorem splitByDamageIdle_no_active_witness :
    splitByDamageIdle tParse 0 ["01|100|a"] 8000
      = [⟨["01|100|a"], 100, 100⟩] := by
  rw [splitByDamageIdle_no_active tParse 0 ["01|100|a"] 8000 (by decide)
    (by decide)]
  decide

/-! ### Damage-event extraction (parse-encounter handler, C8)

```
const RE_HIT   = /^(.*?)\s+hits\s+(.+?)\s+for\s+(\d+)\s+damage\.?$/i;
const RE_TAKES = /^(?:critical!\s*|direct hit!\s*)?(.+?)\s+takes\s+(\d+)\s+damage\.?$/i;
```
-/

/-- Case-insensitive substring test (`/pat/i.test(s)` for a literal
pattern). -/
def containsCI (pat : String) (s : String) : Bool :=
  s.data.tails.any (fun suf => ciPrefix pat.data suf)

/-- `(\d+)\s+damage\.?$`: maximal digit run (its successor `\s` cannot
absorb digits), whitespace, `damage`, an optional final dot, end of
input.  Returns the digit capture. -/
def amountDamageEnd (cs : List Char) : Option String :=
  match cs with
  | c :: _ =>
    if c.isDigit then
      let digits := cs.takeWhile Char.isDigit
      (((dropWS1 (cs.dropWhile Char.isDigit)).bind
        (dropLit "damage"))).bind fun r =>
        match r with
        | [] => some (String.mk digits)
        | ['.'] => some (String.mk digits)
        | _ => none
    else none
  | [] => none

/-- The deterministic tail `\s+for\s+(\d+)\s+damage\.?$` of `RE_HIT`
after the target group. -/
def hitEnd (cs : List Char) : Option String :=
  ((dropWS1 cs).bind (dropLit "for")).bind fun r =>
    (dropWS1 r).bind amountDamageEnd

/-- After `hits`: `\s+(.+?)` then `hitEnd`.  The `\s+` is greedy (longest
run first, backtracking shorter runs), the group lazy (shortest first);
returns (target, digits) of the first completion in that order. -/
def hitAfterHits (rest : List Char) : Option (String × String) :=
  let wmax := (rest.takeWhile isWSc).length
  (List.range wmax).findSome? fun d =>
    let body := rest.drop (wmax - d)
    (List.range body.length).findSome? fun j0 =>
      (hitEnd (body.drop (j0 + 1))).map fun digits =>
        (String.mk (body.take (j0 + 1)), digits)

/-- `RE_HIT` with its captures `(attacker, target, digits)`: the outer
`(.*?)` tries prefixes shortest-first; `\s+hits` after it is
deterministic (`h` is not whitespace). -/
def hitMatch (s : String) : Option (String × String × String) :=
  let cs := s.data
  (List.range (cs.length + 1)).findSome? fun i =>
    (((dropWS1 (cs.drop i)).bind (dropLit "hits")).bind
      hitAfterHits).map fun td => (String.mk (cs.take i), td.1, td.2)

/-- `(.+?)\s+takes\s+(\d+)\s+damage\.?$` over `cs`: lazy group
shortest-first, deterministic tail.  Returns (target, digits). -/
def takesBody (cs : List Char) : Option (String × String) :=
  (List.range cs.length).findSome? fun j0 =>
    (((dropWS1 (cs.drop (j0 + 1))).bind (dropLit "takes")).bind fun r =>
      (dropWS1 r).bind amountDamageEnd).map fun digits =>
      (String.mk (cs.take (j0 + 1)), digits)

/-- `RE_TAKES`: the optional non-capturing prefix is greedy (try
`critical!` then `direct hit!`, each with its greedy `\s*`, then no
prefix). -/
def takesMatch (s : String) : Option (String × String) :=
  let cs := s.data
  let tryPrefix := fun (pat : String) =>
    (dropLit pat cs).bind fun r =>
      let wmax := (r.takeWhile isWSc).length
      (List.range (wmax + 1)).findSome? fun d => takesBody (r.drop (wmax - d))
  match tryPrefix "critical!" with
  | some td => some td
  | none =>
    match tryPrefix "direct hit!" with
    | some td => some td
    | none => takesBody cs

structure Ev where
  tmpName : String
  ts : Int
  type : String
  skill : String
  amount : ℚ
  crit : Bool
  direct_hit : Bool
deriving DecidableEq, Repr

structure ChatState where
  stats : List (String × ActorInfo)
  events : List Ev
deriving DecidableEq, Repr

/-- `Map.get` on the insertion-ordered `actorStats`. -/
def lookupA (l : List (String × ActorInfo)) (k : String) : Option ActorInfo :=
  (l.find? (fun kv => kv.1 = k)).map (·.2)

/-- `if (!actorStats.has(k)) actorStats.set(k, fresh)`. -/
def ensureA (l : List (String × ActorInfo)) (k : String) :
    List (String × ActorInfo) :=
  if (lookupA l k).isSome then l else l ++ [(k, { name := k })]

/-- In-place mutation of the entry at key `k`. -/
def modifyA (l : List (String × ActorInfo)) (k : String)
    (f : ActorInfo → ActorInfo) : List (String × ActorInfo) :=
  l.map fun kv => if kv.1 = k then (kv.1, f kv.2) else kv

/-- `Set.add`: append if absent, in insertion order. -/
def addSkill (sk : String) (skills : List String) : List String :=
  if sk ∈ skills then skills else skills ++ [sk]

/-- Match result and extracted attacker/target/amount of one opcode-00
line: `RE_HIT` first, then `RE_TAKES` with attacker `"Unknown"`; the
captures are trimmed and the digit capture converted by `Number`
(exact here; a digit string short enough to be finite is always exact,
see the header). -/
def chatExtract (line : String) : Option (String × String × ℚ) :=
  let p := fields line
  if getF p 0 ≠ "00" then none
  else
    let rawMsg := rawMsgEncounter p
    match hitMatch rawMsg with
    | some (a, t, d) =>
      some (trimS a, trimS t, (digitsToNat d.data : ℚ))
    | none =>
      match takesMatch rawMsg with
      | some (t, d) => some ("Unknown", trimS t, (digitsToNat d.data : ℚ))
      | none => none

/-- The body of the per-line loop of the parse-encounter handler: on a
valid match, update attacker and target statistics and record one
event; otherwise leave the state unchanged. -/
def processChatLine (parseDate : String → Option Int) (now : Int)
    (st : ChatState) (line : String) : ChatState :=
  match chatExtract line with
  | none => st
  | some (attacker, target, amount) =>
    if attacker = "" ∨ target = "" ∨ amount ≤ 0 then st
    else
      let p := fields line
      let tsIso := (mToIso parseDate (getF p 1)).getD now
      let rawMsg := rawMsgEncounter p
      let isCrit := containsCI "critical" rawMsg
      let isDH := containsCI "direct hit" rawMsg
      let stats1 := modifyA (ensureA st.stats attacker) attacker fun a =>
        { a with totalDamageDealt := a.totalDamageDealt + amount,
                 skillsUsed := addSkill "chat" a.skillsUsed }
      let stats2 := modifyA (ensureA stats1 target) target fun a =>
        { a with totalDamageTaken := a.totalDamageTaken + amount,
                 hitCount := a.hitCount + 1 }
      { stats := stats2,
        events := st.events
          ++ [⟨attacker, tsIso, "dmg", "chat", amount, isCrit, isDH⟩] }

/-- The whole extraction loop over an encounter's lines. -/
def processEncounterLines (parseDate : String → Option Int) (now : Int)
    (lines : List String) : ChatState :=
  lines.foldl (processChatLine parseDate now) ⟨[], []⟩

/-- Damage dealt recorded for `k` (0 before the actor exists). -/
def dealtOf (l : List (String × ActorInfo)) (k : String) : ℚ :=
  ((lookupA l k).getD { name := k }).totalDamageDealt

def takenOf (l : List (String × ActorInfo)) (k : String) : ℚ :=
  ((lookupA l k).getD { name := k }).totalDamageTaken

def hitsOf (l : List (String × ActorInfo)) (k : String) : ℚ :=
  ((lookupA l k).getD { name := k }).hitCount

/-! Lookup lemmas for the actor-statistics map. -/

theorem lookupA_cons (kv : String × ActorInfo) (l : List (String × ActorInfo))
    (k : String) :
    lookupA (kv :: l) k
      = if kv.1 = k then some kv.2 else lookupA l k := by
  unfold lookupA
  by_cases h : kv.1 = k
  · rw [List.find?_cons_of_pos _ (by simpa using h)]
    simp [h]
  · rw [List.find?_cons_of_neg _ (by simpa using h)]
    simp [h]

theorem lookupA_append (l₁ l₂ : List (String × ActorInfo)) (k : String) :
    lookupA (l₁ ++ l₂) k
      = ((lookupA l₁ k).orElse fun _ => lookupA l₂ k) := by
  induction l₁ with
  | nil => simp [lookupA]
  | cons kv l₁ ih =>
    rw [List.cons_append, lookupA_cons, lookupA_cons]
    by_cases h : kv.1 = k
    · simp [h]
    · simp [h, ih]

theorem lookupA_ensure_self (l : List (String × ActorInfo)) (k : String) :
    lookupA (ensureA l k) k
      = some ((lookupA l k).getD { name := k }) := by
  unfold ensureA
  cases h : lookupA l k with
  | some v =>
    rw [if_pos (show ((some v).isSome = true) from rfl), h]
    rfl
  | none =>
    rw [if_neg (by simp), lookupA_append, h]
    simp [lookupA]

theorem lookupA_ensure_other (l : List (String × ActorInfo)) (k k' : String)
    (h : k' ≠ k) : lookupA (ensureA l k) k' = lookupA l k' := by
  unfold ensureA
  by_cases hs : (lookupA l k).isSome
  · rw [if_pos hs]
  · rw [if_neg hs, lookupA_append]
    have : lookupA [(k, { name := k })] k' = none := by
      rw [show [((k : String), ({ name := k } : ActorInfo))]
          = ((k, ({ name := k } : ActorInfo)) :: []) from rfl, lookupA_cons]
      simp [Ne.symm h, lookupA]
    rw [this]
    cases lookupA l k' <;> rfl

theorem lookupA_modify_self (l : List (String × ActorInfo)) (k : String)
    (f : ActorInfo → ActorInfo) :
    lookupA (modifyA l k f) k = (lookupA l k).map f := by
  induction l with
  | nil => rfl
  | cons kv l ih =>
    unfold modifyA
    rw [List.map_cons]
    by_cases h : kv.1 = k
    · rw [if_pos h, lookupA_cons, lookupA_cons]
      simp [h]
    · rw [if_neg h, lookupA_cons, lookupA_cons, if_neg h, if_neg h]
      exact ih

theorem lookupA_modify_other (l : List (String × ActorInfo)) (k k' : String)
    (f : ActorInfo → ActorInfo) (h : k' ≠ k) :
    lookupA (modifyA l k f) k' = lookupA l k' := by
  induction l with
  | nil => rfl
  | cons kv l ih =>
    unfold modifyA
    rw [List.map_cons]
    by_cases hk : kv.1 = k
    · rw [if_pos hk, lookupA_cons, lookupA_cons]
      have : ¬ kv.1 = k' := by rw [hk]; exact Ne.symm h
      simp only [this, if_false, if_neg this]
      exact ih
    · rw [if_neg hk, lookupA_cons, lookupA_cons]
      by_cases hk' : kv.1 = k'
      · simp [hk']
      · simp only [hk', if_false, if_neg hk']
        exact ih

/-- C8.  On every opcode-00 line, a DamageEvent is recorded and the
attacker's `totalDamageDealt` and the target's
`totalDamageTaken`/`hitCount` are incremented exactly when the hit/takes
match yields non-empty attacker and target names (the takes form
supplying attacker "Unknown") and a positive amount; any other line, or
a match failing those guards, leaves the statistics and the event list
unchanged. -/
theorem chatDamage_event_iff (parseDate : String → Option Int) (now : Int) :
    (∀ (st : ChatState) (line : String) (attacker target : String)
        (amount : ℚ),
      chatExtract line = some (attacker, target, amount) →
      attacker ≠ "" → target ≠ "" → 0 < amount →
      ((processChatLine parseDate now st line).events
          = st.events ++ [⟨attacker,
              (mToIso parseDate (getF (fields line) 1)).getD now, "dmg",
              "chat", amount,
              containsCI "critical" (rawMsgEncounter (fields line)),
              containsCI "direct hit" (rawMsgEncounter (fields line))⟩]) ∧
        dealtOf (processChatLine parseDate now st line).stats attacker
          = dealtOf st.stats attacker + amount ∧
        takenOf (processChatLine parseDate now st line).stats target
          = takenOf st.stats target + amount ∧
        hitsOf (processChatLine parseDate now st line).stats target
          = hitsOf st.stats target + 1) ∧
      (∀ (st : ChatState) (line : String),
        (∀ attacker target amount,
          chatExtract line = some (attacker, target, amount) →
          attacker = "" ∨ target = "" ∨ amount ≤ 0) →
        processChatLine parseDate now st line = st) := by
  constructor
  · intro st line a t m hext ha ht hm
    have hguard : ¬ (a = "" ∨ t = "" ∨ m ≤ 0) := by
      push_neg
      exact ⟨ha, ht, hm⟩
    have hstep : processChatLine parseDate now st line
        = { stats := modifyA (ensureA
              (modifyA (ensureA st.stats a) a fun x =>
                { x with totalDamageDealt := x.totalDamageDealt + m,
                         skillsUsed := addSkill "chat" x.skillsUsed }) t) t
              fun x =>
                { x with totalDamageTaken := x.totalDamageTaken + m,
                         hitCount := x.hitCount + 1 },
            events := st.events ++ [⟨a,
              (mToIso parseDate (getF (fields line) 1)).getD now, "dmg",
              "chat", m,
              containsCI "critical" (rawMsgEncounter (fields line)),
              containsCI "direct hit" (rawMsgEncounter (fields line))⟩] } := by
      unfold processChatLine
      rw [hext]
      simp only [if_neg hguard]
    rw [hstep]
    refine ⟨rfl, ?_, ?_, ?_⟩
    · -- attacker's dealt
      have h1 : dealtOf (modifyA (ensureA st.stats a) a fun x =>
          { x with totalDamageDealt := x.totalDamageDealt + m,
                   skillsUsed := addSkill "chat" x.skillsUsed }) a
          = dealtOf st.stats a + m := by
        unfold dealtOf
        rw [lookupA_modify_self, lookupA_ensure_self]
        simp
      by_cases hta : t = a
      · subst hta
        unfold dealtOf at h1 ⊢
        rw [lookupA_modify_self, lookupA_ensure_self]
        simpa using h1
      · unfold dealtOf
        rw [lookupA_modify_other _ _ _ _ (Ne.symm hta),
          lookupA_ensure_other _ _ _ (Ne.symm hta)]
        exact h1
    · -- target's taken
      have h2 : takenOf (modifyA (ensureA st.stats a) a fun x =>
          { x with totalDamageDealt := x.totalDamageDealt + m,
                   skillsUsed := addSkill "chat" x.skillsUsed }) t
          = takenOf st.stats t := by
        by_cases hta : t = a
        · subst hta
          unfold takenOf
          rw [lookupA_modify_self, lookupA_ensure_self]
          simp
        · unfold takenOf
          rw [lookupA_modify_other _ _ _ _ hta,
            lookupA_ensure_other _ _ _ hta]
      unfold takenOf at h2 ⊢
      rw [lookupA_modify_self, lookupA_ensure_self]
      simpa using h2
    · -- target's hit count
      have h3 : hitsOf (modifyA (ensureA st.stats a) a fun x =>
          { x with totalDamageDealt := x.totalDamageDealt + m,
                   skillsUsed := addSkill "chat" x.skillsUsed }) t
          = hitsOf st.stats t := by
        by_cases hta : t = a
        · subst hta
          unfold hitsOf
          rw [lookupA_modify_self, lookupA_ensure_self]
          simp
        · unfold hitsOf
          rw [lookupA_modify_other _ _ _ _ hta,
            lookupA_ensure_other _ _ _ hta]
      unfold hitsOf at h3 ⊢
      rw [lookupA_modify_self, lookupA_ensure_self]
      simpa using h3
  · intro st line hbad
    unfold processChatLine
    cases hext : chatExtract line with
    | none => rfl
    | some x =>
      obtain ⟨a, t, m⟩ := x
      simp [hbad a t m hext]

/-- Witness for C8: a valid hit line records one event and updates both
actors; a takes line with amount 0 leaves the state unchanged. -/
theorem chatDamage_event_iff_witness :
    (processChatLine tParse 0 ⟨[], []⟩
        "00|5|x|Bahamut hits Ifrit for 100 damage.").events
      = [⟨"Bahamut", 5, "dmg", "chat", 100, false, false⟩] ∧
      processChatLine tParse 0 ⟨[], []⟩ "00|5|x|Ifrit takes 0 damage."
        = ⟨[], []⟩ := by
  constructor
  · have h := ((chatDamage_event_iff tParse 0).1 ⟨[], []⟩
      "00|5|x|Bahamut hits Ifrit for 100 damage." "Bahamut" "Ifrit" 100
      (by decide) (by decide) (by decide) (by norm_num)).1
    rw [h]
    decide
  · refine (chatDamage_event_iff tParse 0).2 ⟨[], []⟩
      "00|5|x|Ifrit takes 0 damage." ?_
    intro a t m hm
    rw [show chatExtract "00|5|x|Ifrit takes 0 damage."
        = some ("Unknown", "Ifrit", 0) from by decide] at hm
    injection hm with hm
    have hm3 : m = (0 : ℚ) := by
      simpa using (congrArg (fun q => q.2.2) hm).symm
    right
    right
    rw [hm3]

/-! ### Metrics (parse-encounter handler, C9)

```
const durSec = Math.max(1, Math.round((endMs - startMs) / 1000));
...
totals.set(r.actor_id, (totals.get(r.actor_id) || 0) + (r.amount || 0));
...
dps: total / durSec, hps: 0, deaths: 0, uptime: 0
```
The DB round trip keys totals by actor id; ids are created one per actor
name, so events are keyed here by the name the id stands for. -/

/-- `Math.round` on a rational: JS rounds half toward `+∞`. -/
def jsRound (q : ℚ) : Int := ⌊q + 1/2⌋

/-- `startMs = toMs(start_ts) ?? Date.now(); endMs = toMs(end_ts) ??
startMs; durSec = Math.max(1, Math.round((endMs - startMs)/1000))`. -/
def computeDurSec (parseDate : String → Option Int) (now : Int)
    (startTs endTs : String) : Int :=
  let startMs := (mToMs parseDate startTs).getD now
  let endMs := (mToMs parseDate endTs).getD startMs
  max 1 (jsRound (((endMs - startMs : Int) : ℚ) / 1000))

/-- `totals.set(k, (totals.get(k) || 0) + v)` on the insertion-ordered
totals map. -/
def upsertTotal : List (String × ℚ) → String → ℚ → List (String × ℚ)
  | [], k, v => [(k, v)]
  | (k', w) :: rest, k, v =>
    if k' = k then (k', w + v) :: rest
    else (k', w) :: upsertTotal rest k v

/-- The `type = "dmg"` selection of the metrics query. -/
def dmgEvents (events : List Ev) : List Ev :=
  events.filter (fun ev => ev.type = "dmg")

/-- The `totals` map built by the metrics fold. -/
def totalsOf (events : List Ev) : List (String × ℚ) :=
  (dmgEvents events).foldl
    (fun m ev => upsertTotal m ev.tmpName ev.amount) []

structure MetricsRow where
  actor : String
  dps : ℚ
  hps : ℚ
  deaths : ℚ
  uptime : ℚ
deriving DecidableEq, Repr

/-- The upserted `metrics` rows. -/
def metricsRowsOf (events : List Ev) (durSec : Int) : List MetricsRow :=
  (totalsOf events).map fun kv => ⟨kv.1, kv.2 / (durSec : ℚ), 0, 0, 0⟩

/-- Sum of one actor's damage-type event amounts. -/
def sumAmounts (events : List Ev) (k : String) : ℚ :=
  (((dmgEvents events).filter (fun ev => ev.tmpName = k)).map
    (·.amount)).sum

/-- Totals lookup with the JS `|| 0` default. -/
def valT (m : List (String × ℚ)) (k : String) : ℚ :=
  (((m.find? (fun kv => kv.1 = k)).map (·.2))).getD 0

theorem valT_cons (kv : String × ℚ) (m : List (String × ℚ)) (k : String) :
    valT (kv :: m) k = if kv.1 = k then kv.2 else valT m k := by
  unfold valT
  by_cases h : kv.1 = k
  · rw [List.find?_cons_of_pos _ (by simpa using h)]
    simp [h]
  · rw [List.find?_cons_of_neg _ (by simpa using h)]
    simp [h]

theorem valT_upsert_self (m : List (String × ℚ)) (k : String) (v : ℚ) :
    valT (upsertTotal m k v) k = valT m k + v := by
  induction m with
  | nil => simp [upsertTotal, valT]
  | cons kv rest ih =>
    obtain ⟨k', w⟩ := kv
    unfold upsertTotal
    by_cases h : k' = k
    · rw [if_pos h, valT_cons, valT_cons]
      simp [h]
    · rw [if_neg h, valT_cons, valT_cons]
      simp only [h, if_false, if_neg h]
      exact ih

theorem valT_upsert_other (m : List (String × ℚ)) (k k' : String) (v : ℚ)
    (h : k' ≠ k) : valT (upsertTotal m k v) k' = valT m k' := by
  induction m with
  | nil =>
    simp [upsertTotal, valT, List.find?, Ne.symm h]
  | cons kv rest ih =>
    obtain ⟨k'', w⟩ := kv
    unfold upsertTotal
    by_cases hk : k'' = k
    · rw [if_pos hk, valT_cons, valT_cons]
      have : ¬ (k'', w + v).1 = k' := by
        simp only []
        rw [hk]
        exact Ne.symm h
      simp only [this, if_false, if_neg this]
    · rw [if_neg hk, valT_cons, valT_cons]
      by_cases hk' : k'' = k'
      · simp [hk']
      · simp only [hk', if_false, if_neg hk']
        exact ih

theorem mem_keys_upsert (m : List (String × ℚ)) (k : String) (v : ℚ) :
    ∀ x ∈ (upsertTotal m k v).map Prod.fst,
      x ∈ m.map Prod.fst ∨ x = k := by
  induction m with
  | nil =>
    intro x hx
    simp [upsertTotal] at hx
    exact Or.inr hx
  | cons kv rest ih =>
    obtain ⟨k', w⟩ := kv
    intro x hx
    unfold upsertTotal at hx
    by_cases h : k' = k
    · rw [if_pos h] at hx
      simp only [List.map_cons, List.mem_cons] at hx ⊢
      tauto
    · rw [if_neg h] at hx
      simp only [List.map_cons, List.mem_cons] at hx ⊢
      rcases hx with hx | hx
      · exact Or.inl (Or.inl hx)
      · rcases ih x hx with h' | h'
        · exact Or.inl (Or.inr h')
        · exact Or.inr h'

theorem keys_nodup_upsert (m : List (String × ℚ)) (k : String) (v : ℚ)
    (h : (m.map Prod.fst).Nodup) :
    ((upsertTotal m k v).map Prod.fst).Nodup := by
  induction m with
  | nil => simp [upsertTotal]
  | cons kv rest ih =>
    obtain ⟨k', w⟩ := kv
    rw [List.map_cons, List.nodup_cons] at h
    obtain ⟨hk', hrest⟩ := h
    unfold upsertTotal
    by_cases hkk : k' = k
    · rw [if_pos hkk, List.map_cons, List.nodup_cons]
      exact ⟨hk', hrest⟩
    · rw [if_neg hkk, List.map_cons, List.nodup_cons]
      refine ⟨?_, ih hrest⟩
      intro hcon
      rcases mem_keys_upsert rest k v _ hcon with h' | h'
      · exact hk' h'
      · exact hkk (h' ▸ rfl)

theorem valT_of_mem (m : List (String × ℚ))
    (hnd : (m.map Prod.fst).Nodup) :
    ∀ kt ∈ m, valT m kt.1 = kt.2 := by
  induction m with
  | nil => intro kt hkt; cases hkt
  | cons kv rest ih =>
    obtain ⟨k', w⟩ := kv
    rw [List.map_cons, List.nodup_cons] at hnd
    obtain ⟨hk', hrest⟩ := hnd
    intro kt hkt
    rw [List.mem_cons] at hkt
    rcases hkt with hkt | hkt
    · subst hkt
      rw [valT_cons]
      simp
    · rw [valT_cons]
      have : ¬ (k', w).1 = kt.1 := by
        intro hcon
        exact hk' (hcon ▸ List.mem_map_of_mem Prod.fst hkt)
      rw [if_neg this]
      exact ih hrest kt hkt

theorem valT_fold (evs : List Ev) :
    ∀ (m : List (String × ℚ)) (k : String),
      valT (evs.foldl (fun m ev => upsertTotal m ev.tmpName ev.amount) m) k
        = valT m k
            + ((evs.filter (fun ev => ev.tmpName = k)).map (·.amount)).sum := by
  induction evs with
  | nil => intro m k; simp
  | cons ev evs ih =>
    intro m k
    rw [List.foldl_cons, ih]
    by_cases h : ev.tmpName = k
    · rw [List.filter_cons_of_pos (by simpa using h)]
      rw [show upsertTotal m ev.tmpName ev.amount
          = upsertTotal m k ev.amount from by rw [h]]
      rw [valT_upsert_self]
      simp only [List.map_cons, List.sum_cons]
      ring
    · rw [List.filter_cons_of_neg (by simpa using h)]
      rw [valT_upsert_other _ _ _ _ (fun hc => h hc.symm)]

theorem keys_nodup_fold (evs : List Ev) :
    ∀ (m : List (String × ℚ)), (m.map Prod.fst).Nodup →
      ((evs.foldl (fun m ev => upsertTotal m ev.tmpName ev.amount)
        m).map Prod.fst).Nodup := by
  induction evs with
  | nil => intro m hm; exact hm
  | cons ev evs ih =>
    intro m hm
    rw [List.foldl_cons]
    exact ih _ (keys_nodup_upsert m ev.tmpName ev.amount hm)

theorem totalsOf_eq_sum (events : List Ev) :
    ∀ kt ∈ totalsOf events, kt.2 = sumAmounts events kt.1 := by
  intro kt hkt
  have hnd : ((totalsOf events).map Prod.fst).Nodup :=
    keys_nodup_fold (dmgEvents events) [] (by simp)
  have h1 : valT (totalsOf events) kt.1 = kt.2 :=
    valT_of_mem _ hnd kt hkt
  have h2 : valT (totalsOf events) kt.1 = sumAmounts events kt.1 := by
    unfold totalsOf
    rw [valT_fold]
    simp [valT, sumAmounts]
  rw [← h1, h2]

/-- C9.  For a closed encounter whose stored start/end timestamps parse,
the metric duration is `max(1, round((end − start)/1000))` seconds, and
every metrics row reports `dps` = (sum of that actor's damage-type event
amounts) / duration, with `hps`, `deaths` and `uptime` all 0. -/
theorem metrics_dps (parseDate : String → Option Int) (now : Int)
    (startTs endTs : String) (events : List Ev) (s e : Int)
    (hs : mToMs parseDate startTs = some s)
    (he : mToMs parseDate endTs = some e) :
    computeDurSec parseDate now startTs endTs
        = max 1 (jsRound (((e - s : Int) : ℚ) / 1000)) ∧
      ∀ row ∈ metricsRowsOf events
          (computeDurSec parseDate now startTs endTs),
        row.dps = sumAmounts events row.actor
            / ((computeDurSec parseDate now startTs endTs : Int) : ℚ) ∧
          row.hps = 0 ∧ row.deaths = 0 ∧ row.uptime = 0 := by
  have hdur : computeDurSec parseDate now startTs endTs
      = max 1 (jsRound (((e - s : Int) : ℚ) / 1000)) := by
    unfold computeDurSec
    rw [hs, he]
    rfl
  refine ⟨hdur, ?_⟩
  intro row hrow
  unfold metricsRowsOf at hrow
  rw [List.mem_map] at hrow
  obtain ⟨kv, hkv, hroweq⟩ := hrow
  have hsum := totalsOf_eq_sum events kv hkv
  subst hroweq
  exact ⟨by rw [hsum], rfl, rfl, rfl⟩

/-- Concrete events (two actors, one non-damage row) for the C9
witness. -/
def c9Events : List Ev :=
  [⟨"Bahamut", 0, "dmg", "chat", 100, false, false⟩,
   ⟨"Bahamut", 1000, "dmg", "chat", 50, true, false⟩,
   ⟨"Ifrit", 2000, "dmg", "chat", 30, false, true⟩,
   ⟨"Healer", 3000, "heal", "chat", 999, false, false⟩]

/-- Witness for C9: start 0, end 9400 ms gives duration 9 s, and every
row divides that actor's damage sum by 9. -/
theorem metrics_dps_witness :
    computeDurSec tParse 0 "0" "9400" = 9 ∧
      ∀ row ∈ metricsRowsOf c9Events (computeDurSec tParse 0 "0" "9400"),
        row.dps = sumAmounts c9Events row.actor
            / ((computeDurSec tParse 0 "0" "9400" : Int) : ℚ) ∧
          row.hps = 0 ∧ row.deaths = 0 ∧ row.uptime = 0 := by
  have h := metrics_dps tParse 0 "0" "9400" c9Events 0 9400 (by decide)
    (by decide)
  refine ⟨?_, h.2⟩
  rw [h.1]
  norm_num [jsRound]

/-! ### Strategy B — `splitEncountersByBossOrWipe` (C2, C3, C4)

The boss/wipe/kill-aware segmenter of the `parse-log` revision that
splits encounters with a live party-alive map, a 3000 ms wipe grace
window and minimum line-count/duration thresholds.  The
`instanceBossLibrary` JSON data is a parameter `lib`. -/

/-- `/^[\p{L} '\-]+$/u` character class; `\p{L}` is modelled by the ASCII
letter test (no claim settled here depends on the letter class). -/
def isNameChar (c : Char) : Bool :=
  c.isAlpha || c = ' ' || c = '\'' || c = '-'

/-- The validity test of `parsePartyMembers`. -/
def validPartyName (name : String) : Bool :=
  name ≠ "" && name.data.all isNameChar && 3 ≤ name.data.length &&
    !containsCI "carbuncle" name && !containsCI "eos" name &&
    !containsCI "selene" name

/-- The roster scan: 03 lines among the first 200, names canonicalized
with `stripServer`, validated, deduplicated in insertion order, stopping
at 8 members. -/
def parsePartyAux : List String → List String → List String
  | [], party => party
  | line :: rest, party =>
    let p := fields line
    let party' :=
      if p.length < 4 then party
      else if getF p 0 = "03" then
        let name := stripServer (getF p 3)
        if validPartyName name ∧ name ∉ party then party ++ [name]
        else party
      else party
    if 8 ≤ party'.length then party' else parsePartyAux rest party'

def parsePartyMembers (lines : List String) : List String :=
  parsePartyAux (lines.take 200) []

/-- `Map.set` keeping insertion position (for `idToName`). -/
def insertIdName : List (String × String) → String → String →
    List (String × String)
  | [], k, v => [(k, v)]
  | (k', w) :: rest, k, v =>
    if k' = k then (k', v) :: rest else (k', w) :: insertIdName rest k v

def lookupIdName (m : List (String × String)) (k : String) : Option String :=
  (m.find? (fun kv => kv.1 = k)).map (·.2)

/-- The actor-id → name map built from 03 lines of the first 200 lines
(the source reads `p[2]`/`p[3]` without a length guard; a bare "03" line
would crash it on `undefined`, modelled as `""` per the header). -/
def idToNameOf (lines : List String) : List (String × String) :=
  (lines.take 200).foldl
    (fun m line =>
      let p := fields line
      if getF p 0 = "03" then
        insertIdName m (getF p 2) (stripServer (getF p 3))
      else m)
    []

/-- One entry of `instanceBossLibrary.json`; absent JSON fields are
`none`. -/
structure LibEntry where
  instanceName : Option String
  bosses : Option (List String)
deriving DecidableEq, Repr

/-- Case-sensitive `line.includes(needle)`. -/
def containsStr (hay needle : String) : Bool :=
  hay.data.tails.any (fun suf => needle.data.isPrefixOf suf)

/-- The per-entry boss pick of `matchInstanceAndBoss`:
`entry.bosses?.find(b => line.includes(b))`, with the single-boss
fallback when that is falsy; `""` stands for JS falsy
(undefined/empty). -/
def entryBossFor (line : String) (entry : LibEntry) : String :=
  let b0 :=
    match entry.bosses with
    | some bs => ((bs.find? (fun b => containsStr line b))).getD ""
    | none => ""
  if b0 = "" then
    match entry.bosses with
    | some [b] => b
    | _ => b0
  else b0

/-- `matchInstanceAndBoss(lines, instanceBossLibrary)`: first a pass
requiring the instance name in the line, then a pass on boss names
alone (instance defaulting via `?? "Unknown Duty"`). -/
def matchInstanceAndBoss (lib : List LibEntry) (lines : List String) :
    Option (String × String) :=
  match
    lines.findSome? (fun line =>
      lib.findSome? (fun entry =>
        match entry.instanceName with
        | some inst =>
          if inst ≠ "" && containsStr line inst then
            let boss := entryBossFor line entry
            if boss ≠ "" then some (inst, boss) else none
          else none
        | none => none))
  with
  | some r => some r
  | none =>
    lines.findSome? (fun line =>
      lib.findSome? (fun entry =>
        match entry.bosses with
        | some bs =>
          match bs.find? (fun b => containsStr line b) with
          | some b =>
            if b ≠ "" then some (entry.instanceName.getD "Unknown Duty", b)
            else none
          | none => none
        | none => none))

/-- `/defeats\s+(.+?)\./i.exec(line)` capture 1: leftmost occurrence,
greedy whitespace (longest run first), lazy group up to the first
literal dot. -/
def defeatsDotCapture (line : String) : Option String :=
  let cs := line.data
  (List.range cs.length).findSome? fun i =>
    let suf := cs.drop i
    if ciPrefix "defeats".data suf then
      let rest := suf.drop 7
      let wmax := (rest.takeWhile isWSc).length
      (List.range wmax).findSome? fun d =>
        let body := rest.drop (wmax - d)
        (List.range body.length).findSome? fun j0 =>
          match (body.drop (j0 + 1)).head? with
          | some c =>
            if c = '.' then some (String.mk (body.take (j0 + 1))) else none
          | none => none
    else none

/-- `/hits\s+(.+?)\s+for\s+\d+\s+damage/i.exec(line)` capture 1
(unanchored, so the tail is the prefix test `forDamageTail`). -/
def hitsForCapture (line : String) : Option String :=
  let cs := line.data
  (List.range cs.length).findSome? fun i =>
    let suf := cs.drop i
    if ciPrefix "hits".data suf then
      let rest := suf.drop 4
      let wmax := (rest.takeWhile isWSc).length
      (List.range wmax).findSome? fun d =>
        let body := rest.drop (wmax - d)
        (List.range body.length).findSome? fun j0 =>
          if forDamageTail (body.drop (j0 + 1)) then
            some (String.mk (body.take (j0 + 1)))
          else none
    else none

/-- `getBossNameAndInstance` as (instance, boss). -/
def getBossNameAndInstance (lib : List LibEntry) (lines : List String) :
    String × String :=
  let fallback :=
    match
      lines.findSome? (fun line =>
        match defeatsDotCapture line with
        | some b => some (("Unknown Duty", b))
        | none => (hitsForCapture line).map (fun b => ("Unknown Duty", b)))
    with
    | some r => r
    | none => ("Unknown Duty", "Unknown Boss")
  match matchInstanceAndBoss lib lines with
  | some r => if r.1 ≠ "" ∧ r.2 ≠ "" then r else fallback
  | none => fallback

/-- The fixed resurrection allow-list. -/
def raiseActions : List String :=
  ["Raise", "Resurrection", "Ascend", "Arise", "Undead Rising"]

/-- `/^you are defeated\b/i.test(f)`. -/
def matchYouDefeated (f : String) : Bool :=
  ciPrefix "you are defeated".data f.data &&
    (match f.data.drop 16 with
     | [] => true
     | c :: _ => !isWordC c)

/-- `/^(.+?) is defeated\b/i.exec(f)` capture 1: the shortest non-empty
prefix followed by ` is defeated` and a word boundary. -/
def isDefeatedCapture (f : String) : Option String :=
  let cs := f.data
  (List.range cs.length).findSome? fun j0 =>
    let rest := cs.drop (j0 + 1)
    if ciPrefix " is defeated".data rest then
      match rest.drop 12 with
      | [] => some (String.mk (cs.take (j0 + 1)))
      | c :: _ =>
        if !isWordC c then some (String.mk (cs.take (j0 + 1))) else none
    else none

/-- `deathField`: `p[3]` when truthy and containing `defeated`, else
`p[4]` likewise, else none. -/
def deathFieldOf (p : List String) : Option String :=
  if getF p 3 ≠ "" && containsCI "defeated" (getF p 3) then some (getF p 3)
  else if getF p 4 ≠ "" && containsCI "defeated" (getF p 4) then
    some (getF p 4)
  else none

/-- The name a death line refers to (the local player for "You are
defeated.", else the stripped capture; `""` when nothing matches). -/
def deathNameOf (partyArray : List String) (f : String) : String :=
  if matchYouDefeated f then partyArray.headD ""
  else
    match isDefeatedCapture f with
    | some captured => stripServer (trimS captured)
    | none => ""

/-- The revive target name: `p[7]`, mapped to the local player when it is
`you` (case-insensitive), else stripped. -/
def reviveNameOf (partyArray : List String) (p : List String) : String :=
  let name := getF p 7
  if toLowerS name = "you" then partyArray.headD "" else stripServer name

/-- `new RegExp("defeats\\s+" + escaped(bossName), "i").test(line)`: the
escaped boss name is a literal. -/
def killTest (bossName : String) (line : String) : Bool :=
  line.data.tails.any fun suf =>
    ciPrefix "defeats".data suf &&
      (let rest := suf.drop 7
       let wmax := (rest.takeWhile isWSc).length
       (List.range wmax).any fun d =>
         ciPrefix bossName.data (rest.drop (wmax - d)))

/-- `/You have entered|The instance will shut down|zone|reset/i.test(line)`. -/
def zoneTest (line : String) : Bool :=
  containsCI "You have entered" line ||
    containsCI "The instance will shut down" line ||
    containsCI "zone" line || containsCI "reset" line

inductive EndKind
  | kill
  | wipe
  | zone
  | trailing
deriving DecidableEq, Repr

/-- An emitted encounter; `startMs`/`endMs` are the pushed `start`/`end`
ISO values as milliseconds, `none` standing for the `null` that the
zone/trailing branches can push through the `!` assertions.  `endKind`
is a ghost tag naming the branch that closed the encounter. -/
structure BWEncounter where
  lines : List String
  startMs : Option Int
  endMs : Option Int
  boss : String
  instanceName : String
  endKind : EndKind
deriving DecidableEq, Repr

structure BWContext where
  parseDate : String → Option Int
  now : Int
  partyArray : List String
  idToName : List (String × String)
  bossName : String
  instanceName : String
  minLines : Nat
  minDurMs : Int

structure BWState where
  encounters : List BWEncounter
  current : List String
  partyStatus : List (String × Bool)
  encounterStart : Option String
  inEncounter : Bool
  wipePendingSince : Option Int

def hasMember (status : List (String × Bool)) (name : String) : Bool :=
  (status.find? (fun kv => kv.1 = name)).isSome

def lookupStatus (status : List (String × Bool)) (name : String) :
    Option Bool :=
  (status.find? (fun kv => kv.1 = name)).map (·.2)

/-- `if (partyStatus.has(name)) partyStatus.set(name, v)`. -/
def setMember (status : List (String × Bool)) (name : String) (v : Bool) :
    List (String × Bool) :=
  if hasMember status name then
    status.map (fun kv => if kv.1 = name then (kv.1, v) else kv)
  else status

/-- `Array.from(partyStatus.values()).every(alive => !alive)`. -/
def allDead (status : List (String × Bool)) : Bool :=
  status.all (fun kv => !kv.2)

/-- `for (const name of partyArray) partyStatus.set(name, true)`. -/
def resetStatus (partyArray : List String) : List (String × Bool) :=
  partyArray.map (fun n => (n, true))

def encounterStartTruthy (st : BWState) : Bool :=
  match st.encounterStart with
  | some s => s ≠ ""
  | none => false

/-- State reset shared by every closing branch. -/
def bwResetAfterClose (ctx : BWContext) (st : BWState) : BWState :=
  { st with inEncounter := false, current := [], encounterStart := none,
            partyStatus := resetStatus ctx.partyArray,
            wipePendingSince := none }

/-- `startIso = toIso(encounterStart) ?? now; endIso = toIso(ts) ??
startIso` of the kill/wipe closes. -/
def closeStartEnd (ctx : BWContext) (st : BWState) (ts : String) :
    Int × Int :=
  let startMsV := (st.encounterStart.bind (mToIso ctx.parseDate)).getD ctx.now
  let endMsV := (mToIso ctx.parseDate ts).getD startMsV
  (startMsV, endMsV)

def bwCloseKill (ctx : BWContext) (st : BWState) (ts : String) : BWState :=
  let se := closeStartEnd ctx st ts
  let encs :=
    if ctx.minLines ≤ st.current.length ∧ ctx.minDurMs ≤ se.2 - se.1 then
      st.encounters ++ [⟨st.current, some se.1, some se.2, ctx.bossName,
        ctx.instanceName, .kill⟩]
    else st.encounters
  bwResetAfterClose ctx { st with encounters := encs }

def bwCloseWipe (ctx : BWContext) (st : BWState) (ts : String) : BWState :=
  let se := closeStartEnd ctx st ts
  let encs :=
    if ctx.minLines ≤ st.current.length ∧ ctx.minDurMs ≤ se.2 - se.1 then
      st.encounters ++ [⟨st.current, some se.1, some se.2, ctx.bossName,
        ctx.instanceName, .wipe⟩]
    else st.encounters
  bwResetAfterClose ctx { st with encounters := encs }

/-- The zone/shutdown split: `toMs(lastTs)! - toMs(encounterStart)!`
coerces a `null` to 0 (JS `ToNumber(null)`), and the pushed `start`/`end`
can then be `null`. -/
def bwZone (ctx : BWContext) (st : BWState) (p : List String)
    (line : String) : BWState :=
  if getF p 0 = "01" && zoneTest line then
    let encs :=
      if st.inEncounter && 0 < st.current.length && encounterStartTruthy st
      then
        let lastTs := mToIso ctx.parseDate (getF (fields (st.current.getLastD "")) 1)
        let startOpt := st.encounterStart.bind (mToIso ctx.parseDate)
        if ctx.minLines ≤ st.current.length ∧
            ctx.minDurMs ≤ lastTs.getD 0 - startOpt.getD 0 then
          st.encounters ++ [⟨st.current, startOpt, lastTs, ctx.bossName,
            ctx.instanceName, .zone⟩]
        else st.encounters
      else st.encounters
    bwResetAfterClose ctx { st with encounters := encs }
  else st

/-- Pull detection: an action-opcode line by a known party member (via
the id map) opens an encounter when none is open. -/
def bwPullStart (ctx : BWContext) (st : BWState) (p : List String)
    (ts : String) : BWState :=
  if !st.inEncounter &&
      (getF p 0 = "21" || getF p 0 = "22" || getF p 0 = "15" ||
        getF p 0 = "16" || getF p 0 = "38" || getF p 0 = "26") then
    let actorId := getF p 2
    let actorName :=
      (lookupIdName ctx.idToName actorId).getD (stripServer actorId)
    if hasMember st.partyStatus actorName then
      { st with inEncounter := true, encounterStart := some ts,
                current := [] }
    else st
  else st

/-- `if (inEncounter) current.push(line)`. -/
def bwPushCurrent (st : BWState) (line : String) : BWState :=
  if st.inEncounter then { st with current := st.current ++ [line] }
  else st

/-- Death parsing (opcode 00, `defeated` field). -/
def bwDeathStage (ctx : BWContext) (st : BWState) (p : List String) :
    BWState :=
  match deathFieldOf p with
  | some f =>
    if getF p 0 = "00" then
      { st with partyStatus :=
          setMember st.partyStatus (deathNameOf ctx.partyArray f) false }
    else st
  | none => st

/-- Revive parsing: only explicit raise actions in `p[5]` on 21/22
lines. -/
def bwReviveStage (ctx : BWContext) (st : BWState) (p : List String) :
    BWState :=
  if (getF p 0 = "21" || getF p 0 = "22") && getF p 5 ≠ "" &&
      raiseActions.contains (getF p 5) then
    { st with partyStatus :=
        setMember st.partyStatus (reviveNameOf ctx.partyArray p) true }
  else st

/-- Pull start, current push, death parsing and revive parsing of one
loop iteration, in source order, before the terminal checks. -/
def bwPreState (ctx : BWContext) (st : BWState) (line : String) : BWState :=
  let p := fields line
  bwReviveStage ctx
    (bwDeathStage ctx (bwPushCurrent (bwPullStart ctx st p (getF p 1)) line)
      p) p

/-- One iteration of the main loop of `splitEncountersByBossOrWipe`
(`nextLine?` is `lines[i+1]`, used by the wipe grace check). -/
def bwStep (ctx : BWContext) (st : BWState) (line : String)
    (nextLine? : Option String) : BWState :=
  let p := fields line
  if p.length < 2 then st
  else
    let ts := getF p 1
    let tsMs := (mToMs ctx.parseDate ts).getD 0
    let st4 := bwPreState ctx st line
    if st4.inEncounter && getF p 0 = "00" && ctx.bossName ≠ "" &&
        killTest ctx.bossName line then
      bwCloseKill ctx st4 ts
    else if st4.inEncounter && allDead st4.partyStatus then
      let wps := st4.wipePendingSince.getD tsMs
      let nextLineMs :=
        nextLine?.bind (fun nl => mToMs ctx.parseDate (getF (fields nl) 1))
      let timeGap : Int :=
        match nextLineMs with
        | some v => if v ≠ 0 then v - tsMs else 9999
        | none => 9999
      if 3000 ≤ tsMs - wps ∨ 3000 < timeGap then bwCloseWipe ctx st4 ts
      else bwZone ctx { st4 with wipePendingSince := some wps } p line
    else bwZone ctx { st4 with wipePendingSince := none } p line

def bwLoop (ctx : BWContext) : BWState → List String → BWState
  | st, [] => st
  | st, line :: rest => bwLoop ctx (bwStep ctx st line rest.head?) rest

/-- The trailing-encounter push after the loop. -/
def bwTrailing (ctx : BWContext) (st : BWState) : List BWEncounter :=
  if st.inEncounter && 0 < st.current.length && encounterStartTruthy st then
    let lastTs := mToIso ctx.parseDate (getF (fields (st.current.getLastD "")) 1)
    let startOpt := st.encounterStart.bind (mToIso ctx.parseDate)
    if ctx.minLines ≤ st.current.length ∧
        ctx.minDurMs ≤ lastTs.getD 0 - startOpt.getD 0 then
      st.encounters ++ [⟨st.current, startOpt, lastTs, ctx.bossName,
        ctx.instanceName, .trailing⟩]
    else st.encounters
  else st.encounters

/-- `splitEncountersByBossOrWipe(lines, minLines = 8, minDurMs = 8000)`. -/
def splitEncountersByBossOrWipe (parseDate : String → Option Int)
    (now : Int) (lib : List LibEntry) (lines : List String)
    (minLines : Nat) (minDurMs : Int) : List BWEncounter :=
  let partyArray := parsePartyMembers lines
  if partyArray.isEmpty then []
  else
    let bi := getBossNameAndInstance lib lines
    let ctx : BWContext :=
      ⟨parseDate, now, partyArray, idToNameOf lines, bi.2, bi.1, minLines,
        minDurMs⟩
    let stFin := bwLoop ctx ⟨[], [], resetStatus partyArray, none, false,
      none⟩ lines
    bwTrailing ctx stFin

/-- The surrounding `Deno.serve` handler of that revision, reduced to its
log-splitting decision: the only thrown condition before splitting is
"Not enough lines"; an empty roster is NOT surfaced — the handler
proceeds with the empty encounter list. -/
def handleParseLogBW (parseDate : String → Option Int) (now : Int)
    (lib : List LibEntry) (lines : List String) :
    Except String (List BWEncounter) :=
  if lines.length < 2 then .error "Not enough lines in log file"
  else .ok (splitEncountersByBossOrWipe parseDate now lib lines 8 8000)

/-! Stage lemmas for the Strategy-B state machine. -/

theorem bwPullStart_partyStatus (ctx : BWContext) (st : BWState)
    (p : List String) (ts : String) :
    (bwPullStart ctx st p ts).partyStatus = st.partyStatus := by
  unfold bwPullStart
  dsimp only
  repeat' split
  all_goals rfl

theorem bwPullStart_encounters (ctx : BWContext) (st : BWState)
    (p : List String) (ts : String) :
    (bwPullStart ctx st p ts).encounters = st.encounters := by
  unfold bwPullStart
  dsimp only
  repeat' split
  all_goals rfl

theorem bwPushCurrent_partyStatus (st : BWState) (line : String) :
    (bwPushCurrent st line).partyStatus = st.partyStatus := by
  unfold bwPushCurrent
  split <;> rfl

theorem bwPushCurrent_encounters (st : BWState) (line : String) :
    (bwPushCurrent st line).encounters = st.encounters := by
  unfold bwPushCurrent
  split <;> rfl

theorem bwDeathStage_encounters (ctx : BWContext) (st : BWState)
    (p : List String) :
    (bwDeathStage ctx st p).encounters = st.encounters := by
  unfold bwDeathStage
  repeat' split
  all_goals rfl

theorem bwDeathStage_partyStatus_not00 (ctx : BWContext) (st : BWState)
    (p : List String) (h : getF p 0 ≠ "00") :
    (bwDeathStage ctx st p).partyStatus = st.partyStatus := by
  unfold bwDeathStage
  split
  · rw [if_neg h]
  · rfl

theorem bwReviveStage_encounters (ctx : BWContext) (st : BWState)
    (p : List String) :
    (bwReviveStage ctx st p).encounters = st.encounters := by
  unfold bwReviveStage
  split <;> rfl

theorem bwPreState_encounters (ctx : BWContext) (st : BWState)
    (line : String) :
    (bwPreState ctx st line).encounters = st.encounters := by
  unfold bwPreState
  rw [bwReviveStage_encounters, bwDeathStage_encounters,
    bwPushCurrent_encounters, bwPullStart_encounters]

/-! Status-map lemmas. -/

theorem lookupStatus_mapSet (status : List (String × Bool)) (m : String)
    (v : Bool) :
    lookupStatus (status.map (fun kv => if kv.1 = m then (kv.1, v) else kv)) m
      = (lookupStatus status m).map (fun _ => v) := by
  induction status with
  | nil => rfl
  | cons kv rest ih =>
    rw [List.map_cons]
    by_cases h : kv.1 = m
    · rw [if_pos h]
      unfold lookupStatus
      rw [List.find?_cons_of_pos _ (by simpa using h),
        List.find?_cons_of_pos _ (by simpa using h)]
      simp
    · rw [if_neg h]
      unfold lookupStatus
      rw [List.find?_cons_of_neg _ (by simpa using h),
        List.find?_cons_of_neg _ (by simpa using h)]
      exact ih

theorem lookupStatus_setMember_self (status : List (String × Bool))
    (m : String) (v : Bool) (h : (lookupStatus status m).isSome) :
    lookupStatus (setMember status m v) m = some v := by
  have hmem : hasMember status m = true := by
    unfold hasMember
    unfold lookupStatus at h
    cases hf : status.find? (fun kv => kv.1 = m) with
    | none => rw [hf] at h; simp at h
    | some kv => rfl
  unfold setMember
  rw [if_pos hmem, lookupStatus_mapSet]
  unfold lookupStatus at h ⊢
  cases hf : status.find? (fun kv => kv.1 = m) with
  | none => rw [hf] at h; simp at h
  | some kv => rfl

theorem allDead_false_of_alive (status : List (String × Bool)) (m : String)
    (h : lookupStatus status m = some true) : allDead status = false := by
  induction status with
  | nil => simp [lookupStatus] at h
  | cons kv rest ih =>
    by_cases hk : kv.1 = m
    · unfold lookupStatus at h
      rw [List.find?_cons_of_pos _ (by simpa using hk)] at h
      simp at h
      unfold allDead
      rw [List.all_cons, h]
      rfl
    · unfold lookupStatus at h
      rw [List.find?_cons_of_neg _ (by simpa using hk)] at h
      have := ih h
      unfold allDead at this ⊢
      rw [List.all_cons, this]
      simp

/-! The minimum-threshold invariant (C3). -/

/-- An emitted encounter meeting the thresholds: enough lines, and
whenever both its start and its end timestamp are actual values, the
span between them is at least the minimum duration. -/
def encOK (minLines : Nat) (minDurMs : Int) (e : BWEncounter) : Prop :=
  minLines ≤ e.lines.length ∧
    ∀ a b, e.startMs = some a → e.endMs = some b → minDurMs ≤ b - a

theorem bwCloseKill_mem (ctx : BWContext) (st : BWState) (ts : String) :
    ∀ e ∈ (bwCloseKill ctx st ts).encounters,
      e ∈ st.encounters ∨ encOK ctx.minLines ctx.minDurMs e := by
  intro e he
  unfold bwCloseKill bwResetAfterClose at he
  dsimp only at he
  by_cases hg : ctx.minLines ≤ st.current.length ∧
      ctx.minDurMs ≤ (closeStartEnd ctx st ts).2 - (closeStartEnd ctx st ts).1
  · rw [if_pos hg] at he
    rw [List.mem_append] at he
    rcases he with he | he
    · exact Or.inl he
    · rw [List.mem_singleton] at he
      subst he
      refine Or.inr ⟨hg.1, ?_⟩
      intro a b ha hb
      injection ha with ha
      injection hb with hb
      rw [← ha, ← hb]
      exact hg.2
  · rw [if_neg hg] at he
    exact Or.inl he

theorem bwCloseWipe_mem (ctx : BWContext) (st : BWState) (ts : String) :
    ∀ e ∈ (bwCloseWipe ctx st ts).encounters,
      e ∈ st.encounters ∨ encOK ctx.minLines ctx.minDurMs e := by
  intro e he
  unfold bwCloseWipe bwResetAfterClose at he
  dsimp only at he
  by_cases hg : ctx.minLines ≤ st.current.length ∧
      ctx.minDurMs ≤ (closeStartEnd ctx st ts).2 - (closeStartEnd ctx st ts).1
  · rw [if_pos hg] at he
    rw [List.mem_append] at he
    rcases he with he | he
    · exact Or.inl he
    · rw [List.mem_singleton] at he
      subst he
      refine Or.inr ⟨hg.1, ?_⟩
      intro a b ha hb
      injection ha with ha
      injection hb with hb
      rw [← ha, ← hb]
      exact hg.2
  · rw [if_neg hg] at he
    exact Or.inl he

theorem bwZone_mem (ctx : BWContext) (st : BWState) (p : List String)
    (line : String) :
    ∀ e ∈ (bwZone ctx st p line).encounters,
      e ∈ st.encounters ∨ encOK ctx.minLines ctx.minDurMs e := by
  intro e he
  unfold bwZone bwResetAfterClose at he
  dsimp only at he
  by_cases hz : (getF p 0 = "01" && zoneTest line) = true
  · rw [if_pos hz] at he
    by_cases ho : (st.inEncounter && 0 < st.current.length &&
        encounterStartTruthy st) = true
    · rw [if_pos ho] at he
      by_cases hg : ctx.minLines ≤ st.current.length ∧
          ctx.minDurMs ≤
            (mToIso ctx.parseDate
              (getF (fields (st.current.getLastD "")) 1)).getD 0
            - (st.encounterStart.bind (mToIso ctx.parseDate)).getD 0
      · rw [if_pos hg] at he
        rw [List.mem_append] at he
        rcases he with he | he
        · exact Or.inl he
        · rw [List.mem_singleton] at he
          subst he
          refine Or.inr ⟨hg.1, ?_⟩
          intro a b ha hb
          have ha' : st.encounterStart.bind (mToIso ctx.parseDate) =
              some a := ha
          have hb' : mToIso ctx.parseDate
              (getF (fields (st.current.getLastD "")) 1) = some b := hb
          have h2 := hg.2
          rw [ha', hb'] at h2
          simpa using h2
      · rw [if_neg hg] at he
        exact Or.inl he
    · rw [if_neg ho] at he
      exact Or.inl he
  · rw [if_neg hz] at he
    exact Or.inl he

theorem bwTrailing_mem (ctx : BWContext) (st : BWState) :
    ∀ e ∈ bwTrailing ctx st,
      e ∈ st.encounters ∨ encOK ctx.minLines ctx.minDurMs e := by
  intro e he
  unfold bwTrailing at he
  by_cases ho : (st.inEncounter && 0 < st.current.length &&
      encounterStartTruthy st) = true
  · rw [if_pos ho] at he
    by_cases hg : ctx.minLines ≤ st.current.length ∧
        ctx.minDurMs ≤
          (mToIso ctx.parseDate
            (getF (fields (st.current.getLastD "")) 1)).getD 0
          - (st.encounterStart.bind (mToIso ctx.parseDate)).getD 0
    · rw [if_pos hg] at he
      rw [List.mem_append] at he
      rcases he with he | he
      · exact Or.inl he
      · rw [List.mem_singleton] at he
        subst he
        refine Or.inr ⟨hg.1, ?_⟩
        intro a b ha hb
        have ha' : st.encounterStart.bind (mToIso ctx.parseDate) =
            some a := ha
        have hb' : mToIso ctx.parseDate
            (getF (fields (st.current.getLastD "")) 1) = some b := hb
        have h2 := hg.2
        rw [ha', hb'] at h2
        simpa using h2
    · rw [if_neg hg] at he
      exact Or.inl he
  · rw [if_neg ho] at he
    exact Or.inl he

theorem bwStep_mem (ctx : BWContext) (st : BWState) (line : String)
    (next : Option String) :
    ∀ e ∈ (bwStep ctx st line next).encounters,
      e ∈ st.encounters ∨ encOK ctx.minLines ctx.minDurMs e := by
  intro e he
  have hpre := bwPreState_encounters ctx st line
  unfold bwStep at he
  dsimp only at he
  split at he
  · exact Or.inl he
  · split at he
    · rcases bwCloseKill_mem ctx _ _ e he with h | h
      · exact Or.inl (hpre ▸ h)
      · exact Or.inr h
    · split at he
      · split at he
        · rcases bwCloseWipe_mem ctx _ _ e he with h | h
          · exact Or.inl (hpre ▸ h)
          · exact Or.inr h
        · rcases bwZone_mem ctx _ _ _ e he with h | h
          · exact Or.inl (hpre ▸
              show e ∈ (bwPreState ctx st line).encounters from h)
          · exact Or.inr h
      · rcases bwZone_mem ctx _ _ _ e he with h | h
        · exact Or.inl (hpre ▸
            show e ∈ (bwPreState ctx st line).encounters from h)
        · exact Or.inr h

theorem bwLoop_mem (ctx : BWContext) :
    ∀ (lines : List String) (st : BWState),
      ∀ e ∈ (bwLoop ctx st lines).encounters,
        e ∈ st.encounters ∨ encOK ctx.minLines ctx.minDurMs e := by
  intro lines
  induction lines with
  | nil => intro st e he; exact Or.inl he
  | cons line rest ih =>
    intro st e he
    have he' : e ∈ (bwLoop ctx (bwStep ctx st line rest.head?)
        rest).encounters := he
    rcases ih (bwStep ctx st line rest.head?) e he' with h | h
    · exact bwStep_mem ctx st line rest.head? e h
    · exact Or.inr h

/-- C3 amended: every encounter Strategy B emits has at least `minLines`
lines, and whenever both its start and end timestamps are actual parsed
values, it spans at least `minDurMs` between them.  (The unconditional
form of the claim fails: see the counterexample, where a trailing close
pushes a `null` start through JS null-to-0 coercion.) -/
theorem bw_min_thresholds (parseDate : String → Option Int) (now : Int)
    (lib : List LibEntry) (lines : List String) (minLines : Nat)
    (minDurMs : Int) :
    ∀ e ∈ splitEncountersByBossOrWipe parseDate now lib lines minLines
        minDurMs,
      minLines ≤ e.lines.length ∧
        ∀ a b, e.startMs = some a → e.endMs = some b →
          minDurMs ≤ b - a := by
  intro e he
  unfold splitEncountersByBossOrWipe at he
  dsimp only at he
  split at he
  · exact absurd he (List.not_mem_nil e)
  · rcases bwTrailing_mem _ _ e he with h | h
    · rcases bwLoop_mem _ lines _ e h with h' | h'
      · exact absurd h' (List.not_mem_nil e)
      · exact h'
    · exact h

/-- The concrete log for the C3 witness: one party member, a pull-start
action, and eight in-encounter lines spanning 9000 ms, ending by log
end (trailing close). -/
def c3Lines : List String :=
  ["03|0|id1|Alice", "21|0|id1|Alice", "00|1000|f", "00|2000|f",
   "00|3000|f", "00|4000|f", "00|5000|f", "00|6000|f", "00|9000|f"]

def c3Encounter : BWEncounter :=
  ⟨["21|0|id1|Alice", "00|1000|f", "00|2000|f", "00|3000|f", "00|4000|f",
    "00|5000|f", "00|6000|f", "00|9000|f"],
   some 0, some 9000, "Unknown Boss", "Unknown Duty", .trailing⟩

/-- Witness for the amended C3 on a concrete emitted encounter. -/
theorem bw_min_thresholds_witness :
    8 ≤ c3Encounter.lines.length ∧
      ∀ a b, c3Encounter.startMs = some a → c3Encounter.endMs = some b →
        (8000 : Int) ≤ b - a :=
  bw_min_thresholds tParse 0 [] c3Lines 8 8000 c3Encounter (by decide)

/-- The C3 counterexample input: the pull-start line's timestamp (and the
six following ones) are unparsable, the last line parses to 9000 ms. -/
def c3BadLines : List String :=
  ["03|0|id1|Alice", "21|zz|id1|Alice", "00|a|f", "00|b|f", "00|c|f",
   "00|d|f", "00|e|f", "00|f|f", "00|9000|f"]

/-- C3 counterexample: Strategy B emits exactly one encounter on
`c3BadLines`, and its start timestamp is `null` (`none`) — the trailing
close's `toMs(...)! - toMs(...)!` coerced the unparsable start to 0 and
the 9000 ms end passed the duration check, so an encounter is emitted
that does not span the minimum duration between an actual pair of start
and end timestamps (it has no start timestamp at all). -/
theorem bw_nullstart_emitted :
    (splitEncountersByBossOrWipe tParse 0 [] c3BadLines 8 8000).length
        = 1 ∧
      ∀ e ∈ splitEncountersByBossOrWipe tParse 0 [] c3BadLines 8 8000,
        e.startMs = none ∧ e.endMs = some 9000 ∧ 8 ≤ e.lines.length := by
  decide

/-! Revive/wipe temporal properties (C2). -/

theorem list_ne_append_singleton (l : List BWEncounter) (e : BWEncounter) :
    ¬ l = l ++ [e] := by
  intro h
  have := congrArg List.length h
  rw [List.length_append] at this
  simp at this

theorem append_singleton_inj (l : List BWEncounter) (a b : BWEncounter)
    (h : l ++ [a] = l ++ [b]) : a = b := by
  have h2 := List.append_cancel_left h
  injection h2

/-- A non-zone line leaves the zone-split stage inert. -/
theorem bwZone_eq_of_not01 (ctx : BWContext) (st : BWState)
    (p : List String) (line : String) (h : getF p 0 ≠ "01") :
    bwZone ctx st p line = st := by
  unfold bwZone
  split
  · rename_i hz
    exfalso
    rw [Bool.and_eq_true, decide_eq_true_eq] at hz
    exact h hz.1
  · rfl

/-- On a 21/22 action line carrying a raise-list action, the per-line
parsing stages amount to marking the revive target alive (pull start,
push and death parsing leave the status map unchanged). -/
theorem bwPreState_partyStatus_revive (ctx : BWContext) (st : BWState)
    (line : String)
    (hop : getF (fields line) 0 = "21" ∨ getF (fields line) 0 = "22")
    (hact : getF (fields line) 5 ∈ raiseActions) :
    (bwPreState ctx st line).partyStatus =
      setMember st.partyStatus (reviveNameOf ctx.partyArray (fields line))
        true := by
  have h5 : getF (fields line) 5 ≠ "" := by
    intro h0
    rw [h0] at hact
    exact absurd hact (by decide)
  have h00 : getF (fields line) 0 ≠ "00" := by
    rcases hop with h | h <;> rw [h] <;> decide
  have hc : ((getF (fields line) 0 = "21" || getF (fields line) 0 = "22") &&
      getF (fields line) 5 ≠ "" &&
      raiseActions.contains (getF (fields line) 5)) = true := by
    simp only [Bool.and_eq_true, Bool.or_eq_true, decide_eq_true_eq]
    refine ⟨⟨hop, h5⟩, ?_⟩
    simpa using hact
  unfold bwPreState
  dsimp only
  unfold bwReviveStage
  rw [if_pos hc]
  dsimp only
  rw [bwDeathStage_partyStatus_not00 _ _ _ h00, bwPushCurrent_partyStatus,
    bwPullStart_partyStatus]

/-- C2: on a 21/22 line whose action field is in the raise allow-list, a
party member tracked dead beforehand is tracked alive after the step;
and whenever a step closes the open encounter as a wipe, the whole
tracked roster was simultaneously marked dead at that line (after the
line's own death/revive parsing). -/
theorem bw_revive_and_wipe (ctx : BWContext) (st : BWState) (line : String)
    (next : Option String) :
    (∀ m, (getF (fields line) 0 = "21" ∨ getF (fields line) 0 = "22") →
      getF (fields line) 5 ∈ raiseActions →
      reviveNameOf ctx.partyArray (fields line) = m →
      lookupStatus st.partyStatus m = some false →
      lookupStatus (bwStep ctx st line next).partyStatus m = some true) ∧
    (∀ e, (bwStep ctx st line next).encounters = st.encounters ++ [e] →
      e.endKind = EndKind.wipe →
      allDead (bwPreState ctx st line).partyStatus = true) := by
  constructor
  · intro m hop hact hm hdead
    have h5 : getF (fields line) 5 ≠ "" := by
      intro h0
      rw [h0] at hact
      exact absurd hact (by decide)
    have hlen : ¬ (fields line).length < 2 := by
      intro hl
      apply h5
      unfold getF
      rw [List.getElem?_eq_none (by omega)]
      rfl
    have halive : lookupStatus (setMember st.partyStatus m true) m =
        some true :=
      lookupStatus_setMember_self _ _ _ (by rw [hdead]; rfl)
    have hrev := bwPreState_partyStatus_revive ctx st line hop hact
    rw [hm] at hrev
    unfold bwStep
    dsimp only
    split
    · rename_i hl
      exact absurd hl hlen
    · split
      · rename_i hk
        exfalso
        simp only [Bool.and_eq_true] at hk
        have h00 : getF (fields line) 0 = "00" := by
          have := hk.1.1.2
          simpa using this
        rcases hop with h | h <;> rw [h] at h00 <;>
          exact absurd h00 (by decide)
      · split
        · rename_i hw
          exfalso
          simp only [Bool.and_eq_true] at hw
          have hall := hw.2
          rw [hrev] at hall
          rw [allDead_false_of_alive _ m halive] at hall
          exact Bool.false_ne_true hall
        · rename_i hw
          rw [bwZone_eq_of_not01 _ _ _ _ (by
            rcases hop with h | h <;> rw [h] <;> decide)]
          show lookupStatus (bwPreState ctx st line).partyStatus m =
            some true
          rw [hrev]
          exact halive
  · intro e heq hk
    unfold bwStep at heq
    dsimp only at heq
    split at heq
    · exact absurd heq (list_ne_append_singleton _ _)
    · split at heq
      · unfold bwCloseKill bwResetAfterClose at heq
        dsimp only at heq
        split at heq
        · rw [bwPreState_encounters] at heq
          have he := append_singleton_inj _ _ _ heq
          rw [← he] at hk
          exact absurd hk (by simp)
        · rw [bwPreState_encounters] at heq
          exact absurd heq (list_ne_append_singleton _ _)
      · split at heq
        · rename_i hw
          simp only [Bool.and_eq_true] at hw
          exact hw.2
        · unfold bwZone bwResetAfterClose at heq
          dsimp only at heq
          split at heq
          · split at heq
            · split at heq
              · rw [bwPreState_encounters] at heq
                have he := append_singleton_inj _ _ _ heq
                rw [← he] at hk
                exact absurd hk (by simp)
              · rw [bwPreState_encounters] at heq
                exact absurd heq (list_ne_append_singleton _ _)
            · rw [bwPreState_encounters] at heq
              exact absurd heq (list_ne_append_singleton _ _)
          · have heq' : (bwPreState ctx st line).encounters =
                st.encounters ++ [e] := heq
            rw [bwPreState_encounters] at heq'
            exact absurd heq' (list_ne_append_singleton _ _)

/-- The context for the C2 witness: `parseDate` reads decimal digits,
one party member Alice, boss and instance fixed. -/
def ctxA : BWContext := ⟨tParse, 0, ["Alice"], [], "Bossy", "Duty", 8, 8000⟩

/-- A state in which Alice is tracked dead and no encounter is open. -/
def stA : BWState := ⟨[], [], [("Alice", false)], none, false, none⟩

/-- A state mid-encounter with Alice tracked dead, eight buffered lines
and a wipe pending since 0 ms. -/
def stW : BWState :=
  ⟨[], ["a|b", "a|b", "a|b", "a|b", "a|b", "a|b", "a|b", "a|b"],
   [("Alice", false)], some "0", true, some 0⟩

/-- The wipe-tagged encounter the C2 witness step emits. -/
def eW : BWEncounter :=
  ⟨["a|b", "a|b", "a|b", "a|b", "a|b", "a|b", "a|b", "a|b", "00|9000|x"],
   some 0, some 9000, "Bossy", "Duty", EndKind.wipe⟩

/-- Witness for C2 at a concrete raise line and a concrete wipe close. -/
theorem bw_revive_and_wipe_witness :
    lookupStatus
        (bwStep ctxA stA "21|100|id|x||Raise||Alice" none).partyStatus
        "Alice" = some true ∧
      allDead (bwPreState ctxA stW "00|9000|x").partyStatus = true := by
  constructor
  · exact (bw_revive_and_wipe ctxA stA "21|100|id|x||Raise||Alice" none).1
      "Alice" (by decide) (by decide) (by decide) (by decide)
  · exact (bw_revive_and_wipe ctxA stW "00|9000|x" none).2 eW (by decide)
      (by decide)

/-! Empty-roster behaviour (C4). -/

/-- An empty roster scan makes Strategy B return the empty encounter
list (the `console.log` + `return []` branch). -/
theorem split_empty_of_no_roster (parseDate : String → Option Int)
    (now : Int) (lib : List LibEntry) (lines : List String)
    (minLines : Nat) (minDurMs : Int)
    (h : parsePartyMembers lines = []) :
    splitEncountersByBossOrWipe parseDate now lib lines minLines minDurMs
      = [] := by
  unfold splitEncountersByBossOrWipe
  dsimp only
  split
  · rfl
  · rename_i hne
    rw [h] at hne
    exact absurd rfl hne

/-- C4 amended: when the roster scan finds no party member, Strategy B
does NOT fail — `splitEncountersByBossOrWipe` silently returns the empty
encounter list, and the surrounding handler (whose only pre-split throw
is the under-2-lines check) answers success with an empty list. -/
theorem bw_no_roster_empty_result (parseDate : String → Option Int)
    (now : Int) (lib : List LibEntry) (lines : List String)
    (minLines : Nat) (minDurMs : Int)
    (h : parsePartyMembers lines = []) :
    splitEncountersByBossOrWipe parseDate now lib lines minLines minDurMs
        = [] ∧
      (2 ≤ lines.length →
        handleParseLogBW parseDate now lib lines = Except.ok []) := by
  refine ⟨split_empty_of_no_roster _ _ _ _ _ _ h, fun hl => ?_⟩
  unfold handleParseLogBW
  rw [if_neg (by omega), split_empty_of_no_roster _ _ _ _ _ _ h]

/-- A two-line log in which no roster line (opcode 03 with a valid
name) occurs. -/
def c4Lines : List String := ["00|1|a", "00|2|b"]

/-- C4 counterexample: on a log whose roster scan detects no party
member, the handler succeeds with an empty encounter list instead of
surfacing an error. -/
theorem bw_no_roster_silent :
    parsePartyMembers c4Lines = [] ∧
      handleParseLogBW tParse 0 [] c4Lines = Except.ok [] := by
  constructor
  · decide
  · rfl

/-- A three-line no-roster log for the C4 witness. -/
def c4Lines3 : List String := ["00|1|a", "00|2|b", "00|3|c"]

/-- Witness for the amended C4 at a concrete no-roster input. -/
theorem bw_no_roster_empty_result_witness :
    splitEncountersByBossOrWipe tParse 0 [] c4Lines3 8 8000 = [] ∧
      handleParseLogBW tParse 0 [] c4Lines3 = Except.ok [] := by
  have h := bw_no_roster_empty_result tParse 0 [] c4Lines3 8 8000
    (by decide)
  exact ⟨h.1, h.2 (by decide)⟩

end FFXIVLog
